import Mathlib

/-!
Verification development for the FILTRA entity-canonicalization core.

This file shallowly embeds the code of `src/filtra/configuration/alias_map.py`
and `src/filtra/ner/normalization.py` (data model in `src/filtra/ner/models.py`)
and proves the frozen claims about it.

Modelling conventions:
* Python `str` is Lean `String`; `str.casefold()` / `str.lower()` are modelled by
  ASCII character-wise lowercasing (they coincide on the ASCII data the program
  and all concrete inputs in this file use), and `str.strip()` by dropping
  leading and trailing whitespace characters.
* Python `dict` is an insertion-ordered association list with unique keys;
  assignment updates in place or appends, `get` is the first (unique) match.
* Python `sorted` / `list.sort` are a stable insertion sort with the strict
  lexicographic comparison that Python key tuples use.
* `float` confidences are modelled as rationals (only their ordering is used).
* Exceptions are `Except InputValidationError`; file I/O and YAML parsing are
  outside the embedding, so the merge starts from parsed documents.
-/

set_option maxRecDepth 8192

namespace Filtra

/-- The single-quote character, written by code point to keep literals plain. -/
def sqChar : Char := Char.ofNat 39

/-- The single-quote as a string. -/
def sqStr : String := String.singleton sqChar

/-- `'x'` wrapping used by the Python log f-strings. -/
def quoted (s : String) : String := sqStr ++ s ++ sqStr

/-- ASCII lowercasing of one character. -/
def asciiLower (c : Char) : Char :=
  if 65 ≤ c.toNat ∧ c.toNat ≤ 90 then Char.ofNat (c.toNat + 32) else c

/-- Models Python `str.casefold()`: ASCII character-wise lowercasing. -/
def pyCasefold (s : String) : String := String.mk (s.data.map asciiLower)

/-- Models Python `str.lower()`: ASCII character-wise lowercasing. -/
def pyLower (s : String) : String := String.mk (s.data.map asciiLower)

/-- Drop leading and trailing whitespace from a character list. -/
def pyStripChars (l : List Char) : List Char :=
  ((l.dropWhile Char.isWhitespace).reverse.dropWhile Char.isWhitespace).reverse

/-- Models Python `str.strip()`. -/
def pyStrip (s : String) : String := String.mk (pyStripChars s.data)

/-- Python dict `get`: first (unique) binding for `k`. -/
def dictGet {β : Type} : List (String × β) → String → Option β
  | [], _ => none
  | (k2, v) :: rest, k => if k2 = k then some v else dictGet rest k

/-- Python dict assignment `d[k] = v`: update in place or append. -/
def dictInsert {β : Type} : List (String × β) → String → β → List (String × β)
  | [], k, v => [(k, v)]
  | (k2, v2) :: rest, k, v =>
    if k2 = k then (k2, v) :: rest else (k2, v2) :: dictInsert rest k v

/-- Strict lexicographic order on character lists (Python `str` comparison). -/
def charsLt : List Char → List Char → Bool
  | _, [] => false
  | [], _ :: _ => true
  | a :: as, b :: bs => if a < b then true else if b < a then false else charsLt as bs

/-- Python string `<`. -/
def strLt (a b : String) : Bool := charsLt a.data b.data

/-- Insert `x` before the first element it is strictly less than. -/
def insertStable {α : Type} (lt : α → α → Bool) (x : α) : List α → List α
  | [] => [x]
  | y :: ys => if lt x y then x :: y :: ys else y :: insertStable lt x ys

/-- Stable sort by a strict comparison, as Python `sorted` (Timsort is stable
and any two stable sorts under the same strict key comparison agree). -/
def stableSort {α : Type} (lt : α → α → Bool) (l : List α) : List α :=
  l.foldl (fun acc x => insertStable lt x acc) []

/-- Python `dict.fromkeys` deduplication: distinct elements, first-seen order. -/
def firstDedupAux {α : Type} [DecidableEq α] : List α → List α → List α
  | _, [] => []
  | seen, x :: xs =>
    if x ∈ seen then firstDedupAux seen xs else x :: firstDedupAux (x :: seen) xs

/-- Distinct elements of a list in first-seen order. -/
def firstDedup {α : Type} [DecidableEq α] (l : List α) : List α := firstDedupAux [] l

/-- Is `needle` a prefix of `hay`? -/
def isPrefixB {α : Type} [DecidableEq α] : List α → List α → Bool
  | [], _ => true
  | _ :: _, [] => false
  | a :: as, b :: bs => if a = b then isPrefixB as bs else false

/-- Does `hay` contain `needle` as a contiguous sublist? -/
def containsList {α : Type} [DecidableEq α] : List α → List α → Bool
  | [], needle => needle.isEmpty
  | c :: rest, needle => isPrefixB needle (c :: rest) || containsList rest needle

/-- Substring test on strings. -/
def containsStr (hay needle : String) : Bool := containsList hay.data needle.data

/-- Threading a fallible step through a list, stopping at the first error
(models a Python `for` loop whose body may raise). -/
def exceptFold {ε σ α : Type} (f : σ → α → Except ε σ) : σ → List α → Except ε σ
  | st, [] => .ok st
  | st, x :: xs =>
    match f st x with
    | .error e => .error e
    | .ok st2 => exceptFold f st2 xs

/-! ### SHA-256 (FIPS 180-4), used by `hashlib.sha256` in `_mask_value`

32-bit words are naturals reduced mod `2 ^ 32`; the message is the UTF-8
byte sequence of the input string. -/

/-- UTF-8 encoding of one scalar value, as `str.encode("utf-8")` produces. -/
def utf8EncodeChar (c : Char) : List Nat :=
  let n := c.toNat
  if n < 128 then [n]
  else if n < 2048 then [192 ||| (n >>> 6), 128 ||| (n &&& 63)]
  else if n < 65536 then
    [224 ||| (n >>> 12), 128 ||| ((n >>> 6) &&& 63), 128 ||| (n &&& 63)]
  else
    [240 ||| (n >>> 18), 128 ||| ((n >>> 12) &&& 63),
     128 ||| ((n >>> 6) &&& 63), 128 ||| (n &&& 63)]

/-- UTF-8 bytes of a string. -/
def utf8Bytes (s : String) : List Nat := (s.data.map utf8EncodeChar).flatten

/-- Truncate to a 32-bit word. -/
def w32 (n : Nat) : Nat := n % 4294967296

/-- Right-rotation of a 32-bit word. -/
def rotr32 (n x : Nat) : Nat := w32 ((x >>> n) ||| (x <<< (32 - n)))

/-- SHA-256 `Ch` function (`¬x` as xor with the 32-bit mask). -/
def shaCh (x y z : Nat) : Nat := (x &&& y) ^^^ ((x ^^^ 4294967295) &&& z)

/-- SHA-256 `Maj` function. -/
def shaMaj (x y z : Nat) : Nat := (x &&& y) ^^^ (x &&& z) ^^^ (y &&& z)

/-- SHA-256 big sigma 0. -/
def bsig0 (x : Nat) : Nat := rotr32 2 x ^^^ rotr32 13 x ^^^ rotr32 22 x

/-- SHA-256 big sigma 1. -/
def bsig1 (x : Nat) : Nat := rotr32 6 x ^^^ rotr32 11 x ^^^ rotr32 25 x

/-- SHA-256 small sigma 0. -/
def ssig0 (x : Nat) : Nat := rotr32 7 x ^^^ rotr32 18 x ^^^ (x >>> 3)

/-- SHA-256 small sigma 1. -/
def ssig1 (x : Nat) : Nat := rotr32 17 x ^^^ rotr32 19 x ^^^ (x >>> 10)

/-- SHA-256 round constants (decimal). -/
def shaK : List Nat :=
  [1116352408, 1899447441, 3049323471, 3921009573, 961987163, 1508970993,
   2453635748, 2870763221, 3624381080, 310598401, 607225278, 1426881987,
   1925078388, 2162078206, 2614888103, 3248222580, 3835390401, 4022224774,
   264347078, 604807628, 770255983, 1249150122, 1555081692, 1996064986,
   2554220882, 2821834349, 2952996808, 3210313671, 3336571891, 3584528711,
   113926993, 338241895, 666307205, 773529912, 1294757372, 1396182291,
   1695183700, 1986661051, 2177026350, 2456956037, 2730485921, 2820302411,
   3259730800, 3345764771, 3516065817, 3600352804, 4094571909, 275423344,
   430227734, 506948616, 659060556, 883997877, 958139571, 1322822218,
   1537002063, 1747873779, 1955562222, 2024104815, 2227730452, 2361852424,
   2428436474, 2756734187, 3204031479, 3329325298]

/-- SHA-256 initial hash value (decimal). -/
def shaInitH : List Nat :=
  [1779033703, 3144134277, 1013904242, 2773480762,
   1359893119, 2600822924, 528734635, 1541459225]

/-- Big-endian 8-byte encoding of a length. -/
def bigEndian8 (n : Nat) : List Nat :=
  (List.range 8).map (fun i => (n >>> (8 * (7 - i))) % 256)

/-- SHA-256 padding: `0x80`, zeros to 56 mod 64, then the 64-bit bit length. -/
def shaPad (msg : List Nat) : List Nat :=
  msg ++ 128 :: List.replicate ((120 - ((msg.length + 1) % 64)) % 64) 0
      ++ bigEndian8 (8 * msg.length)

/-- Big-endian 32-bit words from bytes. -/
def bytesToWords : List Nat → List Nat
  | b0 :: b1 :: b2 :: b3 :: rest =>
    ((((b0 <<< 8) ||| b1) <<< 8 ||| b2) <<< 8 ||| b3) :: bytesToWords rest
  | _ => []

/-- Extend the 16 message-schedule words by `k` more. -/
def shaExtend : Nat → List Nat → List Nat
  | 0, ws => ws
  | Nat.succ k, ws =>
    shaExtend k (ws ++ [w32 (ssig1 (ws.getD (ws.length - 2) 0) + ws.getD (ws.length - 7) 0
      + ssig0 (ws.getD (ws.length - 15) 0) + ws.getD (ws.length - 16) 0)])

/-- One SHA-256 compression round on the working variables `[a..h]`. -/
def shaRound (hv : List Nat) (kt wt : Nat) : List Nat :=
  match hv with
  | [a, b, c, d, e, f, g, h] =>
    let t1 := w32 (h + bsig1 e + shaCh e f g + kt + wt)
    let t2 := w32 (bsig0 a + shaMaj a b c)
    [w32 (t1 + t2), a, b, c, w32 (d + t1), e, f, g]
  | other => other

/-- Compress one 64-byte block into the hash state. -/
def shaCompressBlock (hv : List Nat) (block : List Nat) : List Nat :=
  let ws := shaExtend 48 (bytesToWords block)
  let res := (shaK.zip ws).foldl (fun acc p => shaRound acc p.1 p.2) hv
  (hv.zip res).map (fun p => w32 (p.1 + p.2))

/-- Split a byte list into 64-byte blocks; the fuel (any bound on the number
of blocks, here the length itself) only forces structural recursion. -/
def chunks64F : Nat → List Nat → List (List Nat)
  | 0, _ => []
  | _, [] => []
  | Nat.succ fuel, b :: rest => ((b :: rest).take 64) :: chunks64F fuel (rest.drop 63)

/-- Split a byte list into 64-byte blocks. -/
def chunks64 (bs : List Nat) : List (List Nat) := chunks64F bs.length bs

/-- SHA-256 digest of a byte message, as eight 32-bit words. -/
def sha256Words (msg : List Nat) : List Nat :=
  (chunks64 (shaPad msg)).foldl shaCompressBlock shaInitH

/-- Lowercase hex digit. -/
def hexChar (n : Nat) : Char :=
  if n < 10 then Char.ofNat (48 + n) else Char.ofNat (87 + n)

/-- Eight hex digits of a 32-bit word, most significant first. -/
def word8Hex (w : Nat) : List Char :=
  (List.range 8).map (fun i => hexChar ((w >>> (4 * (7 - i))) % 16))

/-- `hashlib.sha256(value.encode("utf-8")).hexdigest()`. -/
def sha256Hex (s : String) : String :=
  String.mk (((sha256Words (utf8Bytes s)).map word8Hex).flatten)

/-! ### `filtra.ner.normalization`: log sanitizer -/

/-- `_mask_value`: the fixed-length redaction token
`f"<redacted:{sha256(value).hexdigest()[:8]}>"`. -/
def _mask_value (value : String) : String :=
  "<redacted:" ++ String.mk ((sha256Hex value).data.take 8) ++ ">"

/-- Left-to-right scan replacing each single-quoted span, exactly as
`re.sub(r"'([^']*)'", ...)` does: outside quotes characters pass through; an
opening quote buffers until the next quote, whose span is replaced by the
masked token in quotes; an unmatched trailing quote is left as it was. -/
def sanScan : List Char → Option (List Char) → List Char
  | [], none => []
  | [], some buf => sqChar :: buf
  | c :: cs, none =>
    if c = sqChar then sanScan cs (some []) else c :: sanScan cs none
  | c :: cs, some buf =>
    if c = sqChar then
      sqChar :: (_mask_value (String.mk buf)).data ++ sqChar :: sanScan cs none
    else sanScan cs (some (buf ++ [c]))

/-- Sanitize one log line (the `_QUOTED_VALUE_RE.sub` call). -/
def sanitizeLine (s : String) : String := String.mk (sanScan s.data none)

/-- `_sanitize_log_entries`. -/
def _sanitize_log_entries (entries : List String) : List String :=
  entries.map sanitizeLine

/-- `_entity_descriptor`. -/
def _entity_descriptor (category text : String) : String :=
  category ++ ":" ++ _mask_value text

/-! ### `filtra.configuration.alias_map`: the alias map and canonicalizer -/

/-- `filtra.errors.InputValidationError` (message and remediation hint). -/
structure InputValidationError where
  message : String
  remediation : String
deriving DecidableEq

/-- `AliasMap`. Mappings are insertion-ordered association lists with unique
keys; `sources` keeps resolved source identifiers (paths) as strings. -/
structure AliasMap where
  canonical_to_aliases : List (String × List String)
  alias_lookup : List (String × String)
  locale_lookup : List (String × List (String × String))
  sources : List String
deriving DecidableEq

/-- `_normalize_language`: `None` for falsy input, else `strip().lower()`,
with an empty result collapsed to `None`. -/
def _normalize_language (language : Option String) : Option String :=
  match language with
  | none => none
  | some s =>
    if s = "" then none
    else if pyLower (pyStrip s) = "" then none else some (pyLower (pyStrip s))

/-- `language.split("-", 1)[0]`: the text before the first hyphen (the whole
string when there is none). -/
def baseSubtag (l : String) : String :=
  String.mk (l.data.takeWhile (fun c => c ≠ Char.ofNat 45))

/-- `_language_candidates`: the hint itself, then — when it contains a
hyphen-separated region subtag — the base subtag alone. -/
def _language_candidates (language : Option String) : List String :=
  match language with
  | none => []
  | some l =>
    if l = "" then []
    else if l.data.contains (Char.ofNat 45) then [l, baseSubtag l]
    else [l]

/-- The locale-candidate loop of `AliasMap.canonicalize`: the first candidate
whose (truthy) locale table contains `folded` wins. -/
def localeFind (m : AliasMap) (folded : String) : List String → Option (String × String)
  | [] => none
  | candidate :: rest =>
    match dictGet m.locale_lookup candidate with
    | some overrides =>
      if overrides.isEmpty then localeFind m folded rest
      else
        match dictGet overrides folded with
        | some canonical => some (candidate, canonical)
        | none => localeFind m folded rest
    | none => localeFind m folded rest

/-- `AliasMap.canonicalize`: canonical representation of `text` plus the
transformation log. -/
def AliasMap.canonicalize (m : AliasMap) (text : String)
    (language : Option String := none) : String × List String :=
  let trimmed := pyStrip text
  let log0 : List String :=
    if trimmed ≠ text then
      ["Trimmed whitespace: " ++ quoted text ++ " -> " ++ quoted trimmed ++ "."]
    else []
  if trimmed = "" then
    ("", log0 ++ ["Discarded empty entity after trimming."])
  else
    let folded := pyCasefold trimmed
    let log1 := log0 ++
      (if folded ≠ trimmed then
        ["Casefolded " ++ quoted trimmed ++ " -> " ++ quoted folded ++ "."]
      else [])
    match localeFind m folded (_language_candidates (_normalize_language language)) with
    | some (candidate, canonical) =>
      (canonical, log1 ++ ["Applied locale override " ++ quoted candidate ++ ": "
        ++ quoted trimmed ++ " -> " ++ quoted canonical ++ "."])
    | none =>
      match dictGet m.alias_lookup folded with
      | some canonical =>
        if canonical = "" then
          (trimmed, log1 ++ ["No alias mapping for " ++ quoted trimmed
            ++ "; using canonical key " ++ quoted trimmed ++ "."])
        else if canonical ≠ trimmed then
          (canonical, log1 ++ ["Mapped alias " ++ quoted trimmed ++ " -> "
            ++ quoted canonical ++ "."])
        else
          (canonical, log1 ++ ["Confirmed canonical form " ++ quoted canonical ++ "."])
      | none =>
        (trimmed, log1 ++ ["No alias mapping for " ++ quoted trimmed
          ++ "; using canonical key " ++ quoted trimmed ++ "."])

/-! ### `filtra.configuration.alias_map`: the merge (`load_alias_map`)

File reading and YAML parsing are I/O; the embedding starts from each
source's already-parsed document, a `Yaml` value. -/

/-- Parsed YAML values (the shapes `yaml.safe_load` can produce that the
merge inspects; non-string scalars other than numbers and booleans behave
like `intV` for every check the code performs). -/
inductive Yaml where
  | nullV : Yaml
  | boolV : Bool → Yaml
  | intV : Int → Yaml
  | strV : String → Yaml
  | listV : List Yaml → Yaml
  | mapV : List (Yaml × Yaml) → Yaml

/-- Python falsiness of a parsed YAML value. -/
def yamlFalsy : Yaml → Bool
  | .nullV => true
  | .boolV b => !b
  | .intV n => n = 0
  | .strV s => s = ""
  | .listV xs => xs.isEmpty
  | .mapV es => es.isEmpty

/-- `payload.get(key)` for a parsed mapping with a string key: non-string
keys never match. -/
def yamlLookup : List (Yaml × Yaml) → String → Option Yaml
  | [], _ => none
  | (Yaml.strV s, v) :: rest, k => if s = k then some v else yamlLookup rest k
  | _ :: rest, k => yamlLookup rest k

/-- The local accumulators threaded through `load_alias_map`. Registries map
a casefolded key to the display form and the declaring source. -/
structure MergeState where
  canonical_to_aliases : List (String × List String)
  alias_lookup : List (String × String)
  locale_lookup : List (String × List (String × String))
  canonical_registry : List (String × String × String)
  alias_registry : List (String × String × String)

/-- The empty accumulators. -/
def emptyMergeState : MergeState :=
  { canonical_to_aliases := [], alias_lookup := [], locale_lookup := [],
    canonical_registry := [], alias_registry := [] }

/-- `_normalize_canonical`: canonical names must be non-empty strings after
trimming. -/
def _normalize_canonical (value : Yaml) (source : String) :
    Except InputValidationError String :=
  match value with
  | Yaml.strV s =>
    if pyStrip s = "" then
      .error { message := "Canonical name in " ++ source ++ " cannot be empty.",
               remediation := "Remove blank canonical entries." }
    else .ok (pyStrip s)
  | _ =>
    .error { message := "Canonical names in " ++ source ++ " must be strings.",
             remediation := "Ensure canonical keys and values are plain text strings." }

/-- `_normalize_alias`: returns the casefolded key and the trimmed display. -/
def _normalize_alias (value : Yaml) (source canonical : String) :
    Except InputValidationError (String × String) :=
  match value with
  | Yaml.strV s =>
    if pyStrip s = "" then
      .error { message := "Alias for " ++ quoted canonical ++ " in " ++ source
                 ++ " cannot be empty.",
               remediation := "Remove blank alias entries." }
    else .ok (pyCasefold (pyStrip s), pyStrip s)
  | _ =>
    .error { message := "Alias for " ++ quoted canonical ++ " in " ++ source
               ++ " must be a string.",
             remediation := "Ensure aliases are provided as strings." }

/-- `_normalize_locale`: locale keys must be non-empty strings after
trimming and lowercasing. -/
def _normalize_locale (value : Yaml) (source : String) :
    Except InputValidationError String :=
  match value with
  | Yaml.strV s =>
    if pyLower (pyStrip s) = "" then
      .error { message := "Locale key in " ++ source ++ " cannot be empty.",
               remediation := "Remove blank locale entries." }
    else .ok (pyLower (pyStrip s))
  | _ =>
    .error { message := "Locale keys in " ++ source
               ++ " must be strings (e.g. " ++ quoted "es" ++ ", " ++ quoted "en-US" ++ ").",
             remediation := "Update locale_overrides to use string locale keys." }

/-- `_register_canonical`: a casefolded canonical key may be redeclared only
with the identical display spelling. -/
def _register_canonical (canonical : String)
    (registry : List (String × String × String)) (source : String) :
    Except InputValidationError (List (String × String × String)) :=
  match dictGet registry (pyCasefold canonical) with
  | some (previous, previous_source) =>
    if previous ≠ canonical then
      .error { message := "Canonical term " ++ quoted canonical ++ " in " ++ source
                 ++ " conflicts with " ++ quoted previous ++ " defined in "
                 ++ previous_source ++ ".",
               remediation :=
                 "Align the canonical value with the existing entry or remove the duplicate." }
    else .ok (dictInsert registry (pyCasefold canonical) (canonical, source))
  | none => .ok (dictInsert registry (pyCasefold canonical) (canonical, source))

/-- `_register_alias`: a casefolded alias key may be redeclared only for the
identical canonical. The label falls back to the key when `display` is falsy. -/
def _register_alias (alias_key canonical : String)
    (registry : List (String × String × String)) (source : String)
    (display : Option String) :
    Except InputValidationError (List (String × String × String)) :=
  match dictGet registry alias_key with
  | some (previous, previous_source) =>
    if previous ≠ canonical then
      .error { message := "Alias "
                 ++ quoted (match display with
                            | some d => if d = "" then alias_key else d
                            | none => alias_key)
                 ++ " in " ++ source ++ " maps to " ++ quoted canonical
                 ++ " but was previously assigned to " ++ quoted previous
                 ++ " in " ++ previous_source ++ ".",
               remediation :=
                 "Update the alias to reference the same canonical term or remove the conflict." }
    else .ok (dictInsert registry alias_key (canonical, source))
  | none => .ok (dictInsert registry alias_key (canonical, source))

/-- `canonical_to_aliases.setdefault(canonical, set())`. -/
def setdefaultBucket (d : List (String × List String)) (k : String) :
    List (String × List String) :=
  if (dictGet d k).isSome then d else d ++ [(k, [])]

/-- `bucket.add(display)` on the set stored under `k` (order is erased later
by the sorted snapshot). -/
def bucketAdd : List (String × List String) → String → String → List (String × List String)
  | [], k, v => [(k, [v])]
  | (k2, vs) :: rest, k, v =>
    if k2 = k then (k2, if v ∈ vs then vs else vs ++ [v]) :: rest
    else (k2, vs) :: bucketAdd rest k v

/-- `locale_lookup.setdefault(locale, {})`. -/
def setdefaultLocale (d : List (String × List (String × String))) (k : String) :
    List (String × List (String × String)) :=
  if (dictGet d k).isSome then d else d ++ [(k, [])]

/-- `locale_lookup[locale][key] = canonical`. -/
def localeBucketInsert : List (String × List (String × String)) → String → String → String →
    List (String × List (String × String))
  | [], locale, k, v => [(locale, [(k, v)])]
  | (l2, inner) :: rest, locale, k, v =>
    if l2 = locale then (l2, dictInsert inner k v) :: rest
    else (l2, inner) :: localeBucketInsert rest locale k v

/-- Body of the alias loop in `_apply_aliases` for one alias list element. -/
def applyAliasItem (source canonical : String) (st : MergeState) (alias_raw : Yaml) :
    Except InputValidationError MergeState :=
  match _normalize_alias alias_raw source canonical with
  | .error e => .error e
  | .ok (key, display_alias) =>
    match _register_alias key canonical st.alias_registry source (some display_alias) with
    | .error e => .error e
    | .ok areg =>
      .ok { st with alias_registry := areg,
                    alias_lookup := dictInsert st.alias_lookup key canonical,
                    canonical_to_aliases :=
                      bucketAdd st.canonical_to_aliases canonical display_alias }

/-- Body of the entry loop in `_apply_aliases` for one `canonical: aliases`
entry. -/
def applyAliasEntry (source : String) (st : MergeState) (entry : Yaml × Yaml) :
    Except InputValidationError MergeState :=
  match _normalize_canonical entry.1 source with
  | .error e => .error e
  | .ok canonical =>
    match _register_canonical canonical st.canonical_registry source with
    | .error e => .error e
    | .ok creg =>
      match _register_alias (pyCasefold canonical) canonical st.alias_registry source
          (some canonical) with
      | .error e => .error e
      | .ok areg =>
        let st2 : MergeState :=
          { st with canonical_registry := creg, alias_registry := areg,
                    alias_lookup :=
                      dictInsert st.alias_lookup (pyCasefold canonical) canonical,
                    canonical_to_aliases :=
                      setdefaultBucket st.canonical_to_aliases canonical }
        match entry.2 with
        | Yaml.nullV => .ok st2
        | Yaml.listV items => exceptFold (applyAliasItem source canonical) st2 items
        | _ =>
          .error { message := "Alias list for " ++ quoted canonical ++ " in " ++ source
                     ++ " must be a sequence.",
                   remediation := "Use a YAML list for aliases, e.g. [" ++ quoted "foo"
                     ++ ", " ++ quoted "bar" ++ "]." }

/-- `_apply_aliases`: `None` is skipped, a non-mapping section is fatal,
entries are processed in order. -/
def _apply_aliases (data : Option Yaml) (st : MergeState) (source : String) :
    Except InputValidationError MergeState :=
  match data with
  | none => .ok st
  | some Yaml.nullV => .ok st
  | some (Yaml.mapV entries) => exceptFold (applyAliasEntry source) st entries
  | some _ =>
    .error { message := "Alias map file " ++ source
               ++ " must map canonical terms to alias lists.",
             remediation := "Under " ++ quoted "aliases"
               ++ ", provide {canonical: [alias, ...]} entries." }

/-- Body of the inner loop in `_apply_locale_overrides` for one
`alias: canonical` pair of one locale. -/
def applyLocaleItem (source locale : String) (st : MergeState) (pair : Yaml × Yaml) :
    Except InputValidationError MergeState :=
  match _normalize_canonical pair.2 source with
  | .error e => .error e
  | .ok canonical =>
    match _register_canonical canonical st.canonical_registry source with
    | .error e => .error e
    | .ok creg =>
      match _register_alias (pyCasefold canonical) canonical st.alias_registry source
          (some canonical) with
      | .error e => .error e
      | .ok areg =>
        match _normalize_alias pair.1 source canonical with
        | .error e => .error e
        | .ok (key, display_alias) =>
          match _register_alias key canonical areg source (some display_alias) with
          | .error e => .error e
          | .ok areg2 =>
            .ok { st with canonical_registry := creg, alias_registry := areg2,
                          locale_lookup :=
                            localeBucketInsert st.locale_lookup locale key canonical,
                          canonical_to_aliases :=
                            bucketAdd (setdefaultBucket st.canonical_to_aliases canonical)
                              canonical display_alias,
                          alias_lookup := dictInsert st.alias_lookup key canonical }

/-- Body of the outer loop in `_apply_locale_overrides` for one locale. -/
def applyLocaleEntry (source : String) (st : MergeState) (entry : Yaml × Yaml) :
    Except InputValidationError MergeState :=
  match _normalize_locale entry.1 source with
  | .error e => .error e
  | .ok locale =>
    match entry.2 with
    | Yaml.mapV pairs =>
      exceptFold (applyLocaleItem source locale)
        { st with locale_lookup := setdefaultLocale st.locale_lookup locale } pairs
    | _ =>
      .error { message := "Locale " ++ quoted locale ++ " in " ++ source
                 ++ " must map aliases to canonical terms.",
               remediation := "Provide alias: canonical pairs under each locale." }

/-- `_apply_locale_overrides`. -/
def _apply_locale_overrides (data : Option Yaml) (st : MergeState) (source : String) :
    Except InputValidationError MergeState :=
  match data with
  | none => .ok st
  | some Yaml.nullV => .ok st
  | some (Yaml.mapV entries) => exceptFold (applyLocaleEntry source) st entries
  | some _ =>
    .error { message := "Locale overrides in " ++ source
               ++ " must map locale codes to alias maps.",
             remediation := "Example: locale_overrides: { es: { alias: canonical } }." }

/-- The root-shape check of `_load_yaml`: `yaml.safe_load(...) or {}` turns a
falsy document (including an empty list or empty string) into an empty
mapping; a truthy non-mapping root is fatal. -/
def loadYamlParsed (v : Yaml) (source : String) :
    Except InputValidationError (List (Yaml × Yaml)) :=
  match (if yamlFalsy v then Yaml.mapV [] else v) with
  | Yaml.mapV entries => .ok entries
  | _ =>
    .error { message := "Alias map file " ++ source
               ++ " must define a mapping at the root level.",
             remediation := "Provide " ++ quoted "aliases" ++ " and optional "
               ++ quoted "locale_overrides" ++ " mappings." }

/-- Loop body of `load_alias_map` for one source. -/
def applySource (st : MergeState) (src : String × Yaml) :
    Except InputValidationError MergeState :=
  match loadYamlParsed src.2 src.1 with
  | .error e => .error e
  | .ok payload =>
    match _apply_aliases (yamlLookup payload "aliases") st src.1 with
    | .error e => .error e
    | .ok st2 => _apply_locale_overrides (yamlLookup payload "locale_overrides") st2 src.1

/-- `load_alias_map` over an ordered list of (resolved source, parsed
document) pairs: thread the accumulators through every source, then take the
immutable snapshot with per-canonical alias sets sorted for determinism. -/
def load_alias_map (sources : List (String × Yaml)) :
    Except InputValidationError AliasMap :=
  match exceptFold applySource emptyMergeState sources with
  | .error e => .error e
  | .ok st =>
    .ok { canonical_to_aliases :=
            st.canonical_to_aliases.map (fun p => (p.1, stableSort strLt p.2)),
          alias_lookup := st.alias_lookup,
          locale_lookup := st.locale_lookup,
          sources := sources.map (fun p => p.1) }

/-! ### `filtra.ner.models`: the entity data model

Confidences are rationals (only their ordering enters the code). The
`__post_init__` trimming of `document_role` / `document_display` is an
idempotent normalization applied at construction; occurrences flowing into
the normalizer already carry it, and `dataclasses.replace` re-applies it as
a no-op, so `replace` is a plain field update. -/

/-- `EntityOccurrence` (the category set is a closed set of strings; the
string representation keeps Python tuple-sorting faithful). -/
structure EntityOccurrence where
  raw_text : String
  canonical_text : String
  category : String
  confidence : ℚ
  span : Nat × Nat
  document_role : String
  document_display : String
  source_language : String
  context_snippet : String
  ingestion_index : Nat
deriving DecidableEq

/-- A default occurrence (only used as the `headD` fallback on group lists,
which are non-empty by construction just as Python indexes `ordered[0]`). -/
def defaultOcc : EntityOccurrence :=
  { raw_text := "", canonical_text := "", category := "", confidence := 0,
    span := (0, 0), document_role := "", document_display := "",
    source_language := "", context_snippet := "", ingestion_index := 0 }

/-- `CanonicalEntity`. -/
structure CanonicalEntity where
  text : String
  category : String
  top_confidence : ℚ
  occurrence_count : Nat
  occurrences : List EntityOccurrence
  contexts : List String
  sources : List String
  aliases : List String
deriving DecidableEq

/-- The dynamic `language_profile` object inspected by
`_iter_language_candidates`: `None`, a plain string, a mapping (a value that
is not a string behaves like a missing key, modelled as `none`), or an
object with optional string attributes `primary`, `language`, `code`. -/
inductive LanguageProfile where
  | noneP : LanguageProfile
  | strP : String → LanguageProfile
  | mapP : List (String × Option String) → LanguageProfile
  | objP : Option String → Option String → Option String → LanguageProfile
deriving DecidableEq

/-- `ExtractedEntityCollection`. -/
structure ExtractedEntityCollection where
  occurrences : List EntityOccurrence
  canonical_entities : List CanonicalEntity
  language_profile : LanguageProfile
  normalization_log : List String
deriving DecidableEq

/-! ### `filtra.ner.normalization`: the occurrence normalizer -/

/-- The `("primary", "language", "code")` probe of the mapping branch of
`_iter_language_candidates`: the first key bound to a string wins. -/
def firstStringValue (entries : List (String × Option String)) :
    List String → Option String
  | [] => none
  | k :: ks =>
    match dictGet entries k with
    | some (some v) => some v
    | _ => firstStringValue entries ks

/-- The attribute probe of the object branch. -/
def firstSomeOpt : List (Option String) → Option String
  | [] => none
  | some v :: _ => some v
  | none :: rest => firstSomeOpt rest

/-- The at-most-one candidate contributed by the language profile. -/
def profileCandidates : LanguageProfile → List (Option String)
  | .noneP => []
  | .strP s => [some s]
  | .mapP entries =>
    match firstStringValue entries ["primary", "language", "code"] with
    | some v => [some v]
    | none => []
  | .objP primary language code =>
    match firstSomeOpt [primary, language, code] with
    | some v => [some v]
    | none => []

/-- `_iter_language_candidates`. -/
def _iter_language_candidates (hint : Option String) (profile : LanguageProfile)
    (entity_language : String) : List (Option String) :=
  hint :: profileCandidates profile ++ [some entity_language]

/-- The first truthy candidate whose `strip().lower()` is non-empty. -/
def firstNonEmptyLanguage : List (Option String) → Option String
  | [] => none
  | none :: rest => firstNonEmptyLanguage rest
  | some s :: rest =>
    if s = "" then firstNonEmptyLanguage rest
    else if pyLower (pyStrip s) = "" then firstNonEmptyLanguage rest
    else some (pyLower (pyStrip s))

/-- `_resolve_language`. -/
def _resolve_language (hint : Option String) (profile : LanguageProfile)
    (entity_language : String) : Option String :=
  firstNonEmptyLanguage (_iter_language_candidates hint profile entity_language)

/-- One pass of the canonicalization loop body over one occurrence: `none`
when the canonical text is empty (the occurrence is dropped), otherwise the
occurrence with `canonical_text` overwritten. -/
def normalizedOccurrence (am : AliasMap) (hint : Option String)
    (profile : LanguageProfile) (occ : EntityOccurrence) : Option EntityOccurrence :=
  let language := _resolve_language hint profile occ.source_language
  let r := am.canonicalize occ.raw_text language
  if r.1 = "" then none else some { occ with canonical_text := r.1 }

/-- The surviving (canonicalized) occurrences in input order. -/
def survivingOccurrences (am : AliasMap) (hint : Option String)
    (profile : LanguageProfile) (occs : List EntityOccurrence) : List EntityOccurrence :=
  occs.filterMap (normalizedOccurrence am hint profile)

/-- The log lines the canonicalization loop appends, in occurrence order:
each occurrence's sanitized step log, plus the skip line for dropped ones. -/
def occurrenceLogs (am : AliasMap) (hint : Option String)
    (profile : LanguageProfile) (occs : List EntityOccurrence) : List String :=
  occs.flatMap (fun occ =>
    let language := _resolve_language hint profile occ.source_language
    let r := am.canonicalize occ.raw_text language
    _sanitize_log_entries r.2 ++
      (if r.1 = "" then
        ["Skipped occurrence with empty canonical text after normalization."]
      else []))

/-- The grouping key `(category, canonical_text.casefold())`. -/
def occKey (o : EntityOccurrence) : String × String :=
  (o.category, pyCasefold o.canonical_text)

/-- `grouped.setdefault(key, []).append(o)` on an insertion-ordered dict. -/
def groupUpsert (key : String × String) (o : EntityOccurrence) :
    List ((String × String) × List EntityOccurrence) →
    List ((String × String) × List EntityOccurrence)
  | [] => [(key, [o])]
  | (k, os) :: rest =>
    if k = key then (k, os ++ [o]) :: rest else (k, os) :: groupUpsert key o rest

/-- The `grouped` dict after the canonicalization loop. -/
def groupPairs (occs : List EntityOccurrence) :
    List ((String × String) × List EntityOccurrence) :=
  occs.foldl (fun g o => groupUpsert (occKey o) o g) []

/-- Strict lexicographic comparison of pairs, as Python compares key
tuples. -/
def pairLtB {α β : Type} (ltA : α → α → Bool) (ltB : β → β → Bool)
    (x y : α × β) : Bool :=
  if ltA x.1 y.1 then true else if ltA y.1 x.1 then false else ltB x.2 y.2

/-- Strict `<` on naturals as a Bool comparison. -/
def natLtB (a b : Nat) : Bool := decide (a < b)

/-- The in-group sort key `(ingestion_index, document_display.lower(),
raw_text.lower())`. -/
def occSortKey (o : EntityOccurrence) : Nat × String × String :=
  (o.ingestion_index, pyLower o.document_display, pyLower o.raw_text)

/-- The in-group sort comparison: strict tuple order on `occSortKey`. -/
def occOrderLt (a b : EntityOccurrence) : Bool :=
  pairLtB natLtB (pairLtB strLt strLt) (occSortKey a) (occSortKey b)

/-- `max(item.confidence for item in ordered)` (groups are non-empty). -/
def maxConfidence : List EntityOccurrence → ℚ
  | [] => 0
  | o :: rest => rest.foldl (fun m x => max m x.confidence) o.confidence

/-- Build one `CanonicalEntity` from a sorted non-empty group. -/
def mkCanonicalEntity (category : String) (ordered : List EntityOccurrence) :
    CanonicalEntity :=
  { text := (ordered.headD defaultOcc).canonical_text,
    category := category,
    top_confidence := maxConfidence ordered,
    occurrence_count := ordered.length,
    occurrences := ordered,
    contexts := ordered.map (fun o => o.context_snippet),
    sources := ordered.map (fun o => o.document_role ++ ":" ++ o.document_display),
    aliases := firstDedup (ordered.map (fun o => o.raw_text)) }

/-- The `"Merged N aliases into ..."` lines, one per group with more than one
distinct raw text, in group insertion order (no trailing period, as in the
source). -/
def mergeLogs (grouped : List ((String × String) × List EntityOccurrence)) :
    List String :=
  grouped.flatMap (fun g =>
    let ordered := stableSort occOrderLt g.2
    let alias_values := firstDedup (ordered.map (fun o => o.raw_text))
    if 1 < alias_values.length then
      ["Merged " ++ toString alias_values.length ++ " aliases into "
        ++ _entity_descriptor g.1.1 ((ordered.headD defaultOcc).canonical_text)]
    else [])

/-- The final entity sort key `(category, text.casefold())`. -/
def entitySortKey (e : CanonicalEntity) : String × String :=
  (e.category, pyCasefold e.text)

/-- The final entity sort comparison: strict tuple order on `entitySortKey`. -/
def entityOrderLt (a b : CanonicalEntity) : Bool :=
  pairLtB strLt strLt (entitySortKey a) (entitySortKey b)

/-- The final occurrence sort comparison (`ingestion_index`). -/
def ingestionLt (a b : EntityOccurrence) : Bool :=
  a.ingestion_index < b.ingestion_index

/-- The distinct `(document_role, document_display)` pairs among survivors
(the `observed_documents` set; only its cardinality is used). -/
def distinctDocuments (occs : List EntityOccurrence) : List (String × String) :=
  firstDedup (occs.map (fun o => (o.document_role, o.document_display)))

/-- The trailing summary log line. -/
def summaryLine (nIn nEntities nDocs : Nat) : String :=
  "Normalized " ++ toString nIn ++ " occurrences to " ++ toString nEntities
    ++ " canonical entities across " ++ toString nDocs ++ " documents."

/-- `normalize_entities`. -/
def normalize_entities (collection : ExtractedEntityCollection) (alias_map : AliasMap)
    (language_hint : Option String := none) : ExtractedEntityCollection :=
  let surv := survivingOccurrences alias_map language_hint collection.language_profile
    collection.occurrences
  let grouped := groupPairs surv
  let entities :=
    stableSort entityOrderLt
      (grouped.map (fun g => mkCanonicalEntity g.1.1 (stableSort occOrderLt g.2)))
  { occurrences := stableSort ingestionLt surv,
    canonical_entities := entities,
    language_profile := collection.language_profile,
    normalization_log := collection.normalization_log
      ++ (occurrenceLogs alias_map language_hint collection.language_profile
            collection.occurrences
          ++ mergeLogs grouped
          ++ [summaryLine collection.occurrences.length entities.length
                (distinctDocuments surv).length]) }

/-! ### Order theory for the comparisons used by the sorts -/

/-- A strict linear comparison: irreflexive, transitive, and connected. -/
def IsStrictCmp {α : Type} (lt : α → α → Bool) : Prop :=
  (∀ x, lt x x = false) ∧
  (∀ x y z, lt x y = true → lt y z = true → lt x z = true) ∧
  (∀ x y, lt x y = false → lt y x = false → x = y)

/-- Transitivity plus asymmetry (all a stable insertion sort needs). -/
def TransAsymm {α : Type} (lt : α → α → Bool) : Prop :=
  (∀ x y z, lt x y = true → lt y z = true → lt x z = true) ∧
  (∀ x y, lt x y = true → lt y x = false)

theorem IsStrictCmp.transAsymm {α : Type} {lt : α → α → Bool}
    (h : IsStrictCmp lt) : TransAsymm lt := by
  obtain ⟨hirr, htr, _⟩ := h
  refine ⟨htr, fun x y hxy => ?_⟩
  by_contra hyx
  have := htr x y x hxy (by revert hyx; cases lt y x <;> simp)
  rw [hirr] at this
  exact Bool.false_ne_true this

theorem charsLt_irrefl (l : List Char) : charsLt l l = false := by
  induction l with
  | nil => rfl
  | cons a as ih => simp [charsLt, ih]

theorem charsLt_trans :
    ∀ (a b c : List Char), charsLt a b = true → charsLt b c = true →
      charsLt a c = true
  | _, [], _, hab, _ => by simp [charsLt] at hab
  | _, _ :: _, [], _, hbc => by simp [charsLt] at hbc
  | [], b :: bs, c :: cs, _, _ => by simp [charsLt]
  | a :: as, b :: bs, c :: cs, hab, hbc => by
    simp only [charsLt] at hab hbc ⊢
    rcases lt_trichotomy a b with hb | hb | hb
    · rcases lt_trichotomy b c with hc | hc | hc
      · simp [lt_trans hb hc]
      · subst hc; simp [hb]
      · simp [hb, lt_asymm hb] at hab
        simp [hc, lt_asymm hc] at hbc
    · subst hb
      rcases lt_trichotomy a c with hc | hc | hc
      · simp [hc]
      · subst hc
        simp [lt_irrefl] at hab hbc ⊢
        exact charsLt_trans as bs cs hab hbc
      · simp [hc, lt_asymm hc] at hbc
    · simp [hb, lt_asymm hb] at hab

theorem charsLt_conn :
    ∀ (a b : List Char), charsLt a b = false → charsLt b a = false → a = b
  | [], [], _, _ => rfl
  | [], _ :: _, hab, _ => by simp [charsLt] at hab
  | _ :: _, [], _, hba => by simp [charsLt] at hba
  | a :: as, b :: bs, hab, hba => by
    simp only [charsLt] at hab hba
    rcases lt_trichotomy a b with hb | hb | hb
    · simp [hb] at hab
    · subst hb
      simp only [lt_irrefl, if_false] at hab hba
      rw [charsLt_conn as bs hab hba]
    · simp [hb] at hba

theorem strLt_cmp : IsStrictCmp strLt := by
  refine ⟨fun x => charsLt_irrefl x.data,
    fun x y z => charsLt_trans x.data y.data z.data,
    fun x y hxy hyx => ?_⟩
  cases x; cases y
  exact congrArg String.mk (charsLt_conn _ _ hxy hyx)

theorem natLtB_cmp : IsStrictCmp natLtB := by
  refine ⟨fun x => by simp [natLtB], fun x y z hxy hyz => ?_, fun x y hxy hyx => ?_⟩
  · simp only [natLtB, decide_eq_true_eq] at *
    omega
  · simp only [natLtB, decide_eq_false_iff_not, Nat.not_lt] at hxy hyx
    omega

theorem pairLtB_cmp {α β : Type} {ltA : α → α → Bool} {ltB : β → β → Bool}
    (hA : IsStrictCmp ltA) (hB : IsStrictCmp ltB) :
    IsStrictCmp (pairLtB ltA ltB) := by
  obtain ⟨hAi, hAt, hAc⟩ := hA
  obtain ⟨hBi, hBt, hBc⟩ := hB
  have hAasym : ∀ x y, ltA x y = true → ltA y x = false :=
    (IsStrictCmp.transAsymm ⟨hAi, hAt, hAc⟩).2
  refine ⟨fun x => by simp [pairLtB, hAi, hBi], ?_, ?_⟩
  · rintro ⟨x1, x2⟩ ⟨y1, y2⟩ ⟨z1, z2⟩ hxy hyz
    simp only [pairLtB] at hxy hyz ⊢
    by_cases h1 : ltA x1 y1 = true
    · by_cases h2 : ltA y1 z1 = true
      · simp [hAt _ _ _ h1 h2]
      · have h3 : ltA z1 y1 = false := by
          by_contra hc
          simp only [Bool.not_eq_false] at hc
          simp [h2, hc] at hyz
        have := hAc y1 z1 (by revert h2; cases ltA y1 z1 <;> simp) h3
        subst this
        simp [h1]
    · have h1b : ltA y1 x1 = false := by
        by_contra hc
        simp only [Bool.not_eq_false] at hc
        simp [h1, hc] at hxy
      have hx1y1 := hAc x1 y1 (by revert h1; cases ltA x1 y1 <;> simp) h1b
      subst hx1y1
      simp only [h1, if_neg, Bool.false_eq_true, if_false, h1b] at hxy
      by_cases h2 : ltA x1 z1 = true
      · simp [h2]
      · have h2b : ltA z1 x1 = false := by
          by_contra hc
          simp only [Bool.not_eq_false] at hc
          simp [h2, hc] at hyz
        have := hAc x1 z1 (by revert h2; cases ltA x1 z1 <;> simp) h2b
        subst this
        simp only [h2, if_neg, Bool.false_eq_true, if_false, h2b] at hyz ⊢
        exact hBt _ _ _ hxy hyz
  · rintro ⟨x1, x2⟩ ⟨y1, y2⟩ hxy hyx
    simp only [pairLtB] at hxy hyx
    by_cases h1 : ltA x1 y1 = true
    · simp [h1] at hxy
    · by_cases h2 : ltA y1 x1 = true
      · simp [h2] at hyx
      · have hx1y1 := hAc x1 y1 (by revert h1; cases ltA x1 y1 <;> simp)
          (by revert h2; cases ltA y1 x1 <;> simp)
        subst hx1y1
        simp only [h1, h2, if_neg, Bool.false_eq_true, if_false] at hxy hyx
        rw [hBc x2 y2 hxy hyx]

theorem occOrderLt_transAsymm : TransAsymm occOrderLt := by
  have h := IsStrictCmp.transAsymm
    (pairLtB_cmp natLtB_cmp (pairLtB_cmp strLt_cmp strLt_cmp))
  exact ⟨fun x y z hxy hyz => h.1 _ _ _ hxy hyz, fun x y hxy => h.2 _ _ hxy⟩

theorem entityOrderLt_transAsymm : TransAsymm entityOrderLt := by
  have h := IsStrictCmp.transAsymm (pairLtB_cmp strLt_cmp strLt_cmp)
  exact ⟨fun x y z hxy hyz => h.1 _ _ _ hxy hyz, fun x y hxy => h.2 _ _ hxy⟩

theorem ingestionLt_transAsymm : TransAsymm ingestionLt := by
  constructor
  · intro x y z hxy hyz
    simp only [ingestionLt, decide_eq_true_eq] at *
    omega
  · intro x y hxy
    simp only [ingestionLt, decide_eq_true_eq, decide_eq_false_iff_not, Nat.not_lt] at *
    omega

/-! ### Stable insertion sort: permutation and sortedness -/

theorem mem_insertStable {α : Type} (lt : α → α → Bool) (x : α) :
    ∀ (l : List α) (y : α), y ∈ insertStable lt x l ↔ y = x ∨ y ∈ l := by
  intro l
  induction l with
  | nil => simp [insertStable]
  | cons z zs ih =>
    intro y
    by_cases h : lt x z = true
    · simp [insertStable, h, List.mem_cons]
    · simp only [insertStable, h, if_neg, Bool.false_eq_true, if_false, List.mem_cons, ih]
      tauto

theorem insertStable_perm {α : Type} (lt : α → α → Bool) (x : α) :
    ∀ (l : List α), (insertStable lt x l).Perm (x :: l) := by
  intro l
  induction l with
  | nil => simp [insertStable]
  | cons z zs ih =>
    by_cases h : lt x z = true
    · simp [insertStable, h]
    · simp only [insertStable, h, if_neg, Bool.false_eq_true, if_false]
      exact ((ih.cons z).trans (List.Perm.swap x z zs))

theorem foldl_insert_perm {α : Type} (lt : α → α → Bool) :
    ∀ (l acc : List α),
      (l.foldl (fun a x => insertStable lt x a) acc).Perm (acc ++ l) := by
  intro l
  induction l with
  | nil => simp
  | cons x xs ih =>
    intro acc
    have h1 := ih (insertStable lt x acc)
    have h2 : (insertStable lt x acc ++ xs).Perm (acc ++ x :: xs) := by
      have hl := (insertStable_perm lt x acc).append_right xs
      exact hl.trans List.perm_middle.symm
    exact (List.foldl_cons _ _ ▸ h1).trans h2

theorem stableSort_perm {α : Type} (lt : α → α → Bool) (l : List α) :
    (stableSort lt l).Perm l := by
  simpa [stableSort] using foldl_insert_perm lt l []

/-- The order a stable sort guarantees between adjacent elements: the later
one is not strictly less. -/
def notGt {α : Type} (lt : α → α → Bool) (a b : α) : Prop := lt b a = false

theorem sorted_insertStable {α : Type} {lt : α → α → Bool} (h : TransAsymm lt)
    (x : α) : ∀ {l : List α}, List.Sorted (notGt lt) l →
      List.Sorted (notGt lt) (insertStable lt x l) := by
  intro l
  induction l with
  | nil => intro _; simp [insertStable, List.sorted_singleton]
  | cons y ys ih =>
    intro hl
    rw [List.sorted_cons] at hl
    obtain ⟨hy, hys⟩ := hl
    by_cases hxy : lt x y = true
    · simp only [insertStable, hxy, if_true]
      rw [List.sorted_cons]
      refine ⟨?_, by rw [List.sorted_cons]; exact ⟨hy, hys⟩⟩
      intro b hb
      rcases List.mem_cons.mp hb with hb | hb
      · rw [notGt, hb]
        exact h.2 x y hxy
      · by_contra hc
        simp only [notGt, Bool.not_eq_false] at hc
        have h1 : lt b y = true := h.1 b x y hc hxy
        have := hy b hb
        simp [notGt, h1] at this
    · simp only [insertStable, hxy, if_neg, Bool.false_eq_true, if_false]
      rw [List.sorted_cons]
      refine ⟨?_, ih hys⟩
      intro b hb
      rcases (mem_insertStable lt x ys b).mp hb with hb | hb
      · subst hb
        simpa [notGt] using hxy
      · exact hy b hb

theorem sorted_stableSort {α : Type} {lt : α → α → Bool} (h : TransAsymm lt)
    (l : List α) : List.Sorted (notGt lt) (stableSort lt l) := by
  suffices haux : ∀ (l acc : List α), List.Sorted (notGt lt) acc →
      List.Sorted (notGt lt) (l.foldl (fun a x => insertStable lt x a) acc) by
    exact haux l [] (by simp)
  intro l
  induction l with
  | nil => intro acc hacc; simpa using hacc
  | cons x xs ih =>
    intro acc hacc
    exact ih (insertStable lt x acc) (sorted_insertStable h x hacc)

theorem stableSort_pair {α : Type} (lt : α → α → Bool) (a b : α) :
    stableSort lt [a, b] = if lt b a then [b, a] else [a, b] := by
  by_cases h : lt b a = true <;> simp [stableSort, insertStable, h]

theorem stableSort_mem {α : Type} (lt : α → α → Bool) (l : List α) (x : α) :
    x ∈ stableSort lt l ↔ x ∈ l :=
  (stableSort_perm lt l).mem_iff

theorem stableSort_length {α : Type} (lt : α → α → Bool) (l : List α) :
    (stableSort lt l).length = l.length :=
  (stableSort_perm lt l).length_eq

/-! ### Dictionary, fold and substring lemmas -/

theorem dictGet_insert {β : Type} :
    ∀ (d : List (String × β)) (k k0 : String) (v : β),
      dictGet (dictInsert d k v) k0 = if k = k0 then some v else dictGet d k0 := by
  intro d
  induction d with
  | nil => intro k k0 v; simp [dictInsert, dictGet]
  | cons p rest ih =>
    intro k k0 v
    obtain ⟨k2, v2⟩ := p
    by_cases h : k2 = k
    · subst h
      by_cases h0 : k2 = k0
      · subst h0; simp [dictInsert, dictGet]
      · simp [dictInsert, dictGet, h0]
    · by_cases h0 : k2 = k0
      · subst h0
        have : k ≠ k2 := fun hc => h hc.symm
        simp [dictInsert, dictGet, h, this]
      · simp [dictInsert, dictGet, h, h0, ih]

theorem exceptFold_inv {ε σ α : Type} (f : σ → α → Except ε σ) (P : σ → Prop)
    (hstep : ∀ st x st2, f st x = .ok st2 → P st → P st2) :
    ∀ (xs : List α) (st st2 : σ), exceptFold f st xs = .ok st2 → P st → P st2 := by
  intro xs
  induction xs with
  | nil =>
    intro st st2 h hp
    simp only [exceptFold] at h
    cases h
    exact hp
  | cons x rest ih =>
    intro st st2 h hp
    simp only [exceptFold] at h
    cases hx : f st x with
    | error e => rw [hx] at h; cases h
    | ok stm => rw [hx] at h; exact ih stm st2 h (hstep st x stm hx hp)

theorem exceptFold_error_mem {ε σ α : Type} (f : σ → α → Except ε σ) (x : α)
    (hbad : ∀ st, ∃ e, f st x = .error e) :
    ∀ (xs : List α) (st : σ), x ∈ xs → ∃ e, exceptFold f st xs = .error e := by
  intro xs
  induction xs with
  | nil => intro st h; cases h
  | cons y rest ih =>
    intro st hmem
    rcases List.mem_cons.mp hmem with rfl | hmem
    · obtain ⟨e, he⟩ := hbad st
      exact ⟨e, by simp [exceptFold, he]⟩
    · cases hy : f st y with
      | error e => exact ⟨e, by simp [exceptFold, hy]⟩
      | ok stm =>
        obtain ⟨e, he⟩ := ih stm hmem
        exact ⟨e, by simp [exceptFold, hy, he]⟩

theorem isPrefixB_append_self {α : Type} [DecidableEq α] :
    ∀ (n t : List α), isPrefixB n (n ++ t) = true := by
  intro n
  induction n with
  | nil => intro t; rfl
  | cons a as ih => intro t; simp [isPrefixB, ih]

theorem containsList_of_isPrefixB {α : Type} [DecidableEq α] :
    ∀ (h n : List α), isPrefixB n h = true → containsList h n = true := by
  intro h n hp
  cases h with
  | nil =>
    cases n with
    | nil => rfl
    | cons a as => simp [isPrefixB] at hp
  | cons c rest => simp [containsList, hp]

theorem containsList_cons {α : Type} [DecidableEq α] (c : α) (rest n : List α)
    (h : containsList rest n = true) : containsList (c :: rest) n = true := by
  simp [containsList, h]

theorem containsList_append_left {α : Type} [DecidableEq α] :
    ∀ (s t n : List α), containsList t n = true → containsList (s ++ t) n = true := by
  intro s
  induction s with
  | nil => intro t n h; simpa using h
  | cons a as ih => intro t n h; exact containsList_cons a (as ++ t) n (ih t n h)

/-- Any middle factor of a concatenation is contained as a substring. -/
theorem containsStr_factor (pre mid post : String) :
    containsStr (pre ++ mid ++ post) mid = true := by
  have hdata : (pre ++ mid ++ post).data = pre.data ++ (mid.data ++ post.data) := by
    simp
  rw [containsStr, hdata]
  exact containsList_append_left pre.data (mid.data ++ post.data) mid.data
    (containsList_of_isPrefixB _ _ (isPrefixB_append_self mid.data post.data))

/-- Substring containment from a factorization of the character data. -/
theorem containsStr_eq_factor (hay pre mid post : String)
    (h : hay.data = pre.data ++ mid.data ++ post.data) :
    containsStr hay mid = true := by
  rw [containsStr, h, List.append_assoc]
  exact containsList_append_left pre.data (mid.data ++ post.data) mid.data
    (containsList_of_isPrefixB _ _ (isPrefixB_append_self mid.data post.data))

/-! ### Claim C1 -/

/-- C1: in a merge of ordered alias sources, re-declaring a canonical whose
casefolded key is already registered with the identical display spelling, or
an alias whose casefolded key is already assigned to the identical canonical,
never raises; a canonical redeclaration with a different display spelling, or
an alias redeclaration with a different canonical, always raises a
configuration error whose message names both sources and both conflicting
values. -/
theorem claim1_redeclaration_conflicts
    (regC regA : List (String × String × String))
    (canonical previous psrc source : String)
    (alias_key acanonical aprev apsrc asource : String) (display : Option String)
    (hC : dictGet regC (pyCasefold canonical) = some (previous, psrc))
    (hA : dictGet regA alias_key = some (aprev, apsrc)) :
    (previous = canonical →
      _register_canonical canonical regC source =
        .ok (dictInsert regC (pyCasefold canonical) (canonical, source))) ∧
    (previous ≠ canonical →
      ∃ e, _register_canonical canonical regC source = .error e ∧
        containsStr e.message canonical = true ∧
        containsStr e.message previous = true ∧
        containsStr e.message source = true ∧
        containsStr e.message psrc = true) ∧
    (aprev = acanonical →
      _register_alias alias_key acanonical regA asource display =
        .ok (dictInsert regA alias_key (acanonical, asource))) ∧
    (aprev ≠ acanonical →
      ∃ e, _register_alias alias_key acanonical regA asource display = .error e ∧
        containsStr e.message acanonical = true ∧
        containsStr e.message aprev = true ∧
        containsStr e.message asource = true ∧
        containsStr e.message apsrc = true) := by
  refine ⟨?_, ?_, ?_, ?_⟩
  · intro heq
    subst heq
    simp [_register_canonical, hC]
  · intro hne
    have hne2 : previous ≠ canonical := hne
    have herr : _register_canonical canonical regC source =
        .error { message := "Canonical term " ++ quoted canonical ++ " in " ++ source
                   ++ " conflicts with " ++ quoted previous ++ " defined in "
                   ++ psrc ++ ".",
                 remediation :=
                   "Align the canonical value with the existing entry or remove the duplicate." } := by
      simp [_register_canonical, hC, hne2]
    refine ⟨_, herr, ?_, ?_, ?_, ?_⟩
    · exact containsStr_eq_factor _ ("Canonical term " ++ sqStr) canonical
        (sqStr ++ " in " ++ source ++ " conflicts with " ++ quoted previous
          ++ " defined in " ++ psrc ++ ".") (by simp [quoted, sqStr])
    · exact containsStr_eq_factor _
        ("Canonical term " ++ quoted canonical ++ " in " ++ source
          ++ " conflicts with " ++ sqStr) previous
        (sqStr ++ " defined in " ++ psrc ++ ".") (by simp [quoted, sqStr])
    · exact containsStr_eq_factor _
        ("Canonical term " ++ quoted canonical ++ " in ") source
        (" conflicts with " ++ quoted previous ++ " defined in " ++ psrc ++ ".")
        (by simp [quoted, sqStr])
    · exact containsStr_eq_factor _
        ("Canonical term " ++ quoted canonical ++ " in " ++ source
          ++ " conflicts with " ++ quoted previous ++ " defined in ") psrc
        "." (by simp [quoted, sqStr])
  · intro heq
    subst heq
    simp [_register_alias, hA]
  · intro hne
    have hne2 : aprev ≠ acanonical := hne
    have hlabel : ∃ label : String,
        (match display with
         | some d => if d = "" then alias_key else d
         | none => alias_key) = label := ⟨_, rfl⟩
    obtain ⟨label, hlabel⟩ := hlabel
    have herr : _register_alias alias_key acanonical regA asource display =
        .error { message := "Alias " ++ quoted label
                   ++ " in " ++ asource ++ " maps to " ++ quoted acanonical
                   ++ " but was previously assigned to " ++ quoted aprev
                   ++ " in " ++ apsrc ++ ".",
                 remediation :=
                   "Update the alias to reference the same canonical term or remove the conflict." } := by
      simp [_register_alias, hA, hne2, hlabel]
    refine ⟨_, herr, ?_, ?_, ?_, ?_⟩
    · exact containsStr_eq_factor _
        ("Alias " ++ quoted label ++ " in " ++ asource ++ " maps to " ++ sqStr)
        acanonical
        (sqStr ++ " but was previously assigned to " ++ quoted aprev ++ " in "
          ++ apsrc ++ ".") (by simp [quoted, sqStr])
    · exact containsStr_eq_factor _
        ("Alias " ++ quoted label ++ " in " ++ asource ++ " maps to "
          ++ quoted acanonical ++ " but was previously assigned to " ++ sqStr)
        aprev (sqStr ++ " in " ++ apsrc ++ ".") (by simp [quoted, sqStr])
    · exact containsStr_eq_factor _
        ("Alias " ++ quoted label ++ " in ")
        asource
        (" maps to " ++ quoted acanonical ++ " but was previously assigned to "
          ++ quoted aprev ++ " in " ++ apsrc ++ ".") (by simp [quoted, sqStr])
    · exact containsStr_eq_factor _
        ("Alias " ++ quoted label ++ " in " ++ asource ++ " maps to "
          ++ quoted acanonical ++ " but was previously assigned to "
          ++ quoted aprev ++ " in ")
        apsrc "." (by simp [quoted, sqStr])

/-- Witness for C1 at concrete registries: identical redeclaration of
`Python` succeeds; declaring `PYTHON` against registered `Python` fails with
a message naming both sources and spellings; likewise for the alias table. -/
theorem claim1_witness :
    (_register_canonical "Python" [("python", ("Python", "a.yaml"))] "b.yaml" =
      .ok [("python", ("Python", "b.yaml"))]) ∧
    (∃ e, _register_canonical "PYTHON" [("python", ("Python", "a.yaml"))] "b.yaml" =
        .error e ∧
      containsStr e.message "PYTHON" = true ∧
      containsStr e.message "Python" = true ∧
      containsStr e.message "b.yaml" = true ∧
      containsStr e.message "a.yaml" = true) ∧
    (_register_alias "np" "NumPy" [("np", ("NumPy", "a.yaml"))] "b.yaml"
        (some "np") = .ok [("np", ("NumPy", "b.yaml"))]) ∧
    (∃ e, _register_alias "np" "Numeric Python" [("np", ("NumPy", "a.yaml"))]
        "b.yaml" (some "np") = .error e ∧
      containsStr e.message "Numeric Python" = true ∧
      containsStr e.message "NumPy" = true ∧
      containsStr e.message "b.yaml" = true ∧
      containsStr e.message "a.yaml" = true) := by
  have h1 := claim1_redeclaration_conflicts
    [("python", ("Python", "a.yaml"))] [("np", ("NumPy", "a.yaml"))]
    "Python" "Python" "a.yaml" "b.yaml"
    "np" "NumPy" "NumPy" "a.yaml" "b.yaml" (some "np")
    (by decide) (by decide)
  have h2 := claim1_redeclaration_conflicts
    [("python", ("Python", "a.yaml"))] [("np", ("NumPy", "a.yaml"))]
    "PYTHON" "Python" "a.yaml" "b.yaml"
    "np" "Numeric Python" "NumPy" "a.yaml" "b.yaml" (some "np")
    (by decide) (by decide)
  refine ⟨by simpa using h1.1 rfl, ?_, by simpa using h1.2.2.1 rfl, ?_⟩
  · simpa using h2.2.1 (by decide)
  · simpa using h2.2.2.2 (by decide)

/-! ### Claims C4 and C5 -/

/-- The example map of C4: a global alias `ds -> Data Science` together with
an `en` locale override `ds -> Data Systems` (built directly; the general
conjuncts of the claim quantify over every `AliasMap`). -/
def dsAliasMap : AliasMap :=
  { canonical_to_aliases := [("Data Science", ["ds"]), ("Data Systems", ["ds"])],
    alias_lookup := [("ds", "Data Science")],
    locale_lookup := [("en", [("ds", "Data Systems")])],
    sources := ["base.yaml", "override.yaml"] }

/-- C4: `canonicalize` consults the locale tables before the global alias
table, trying as candidates the lowercased hint and then, when the hint has
a hyphen-separated region subtag, the base subtag alone, and returns on the
first locale hit; in particular with global alias `ds -> Data Science` and
`en` override `ds -> Data Systems`, hint `en` yields `Data Systems` and hint
`fr` yields `Data Science`. -/
theorem claim4_locale_precedence (m : AliasMap) (text : String)
    (hint : Option String) (hs cand canon : String)
    (hne : pyStrip text ≠ "")
    (hfind : localeFind m (pyCasefold (pyStrip text))
        (_language_candidates (_normalize_language hint)) = some (cand, canon))
    (hhint : hint = some hs)
    (hslow : pyLower (pyStrip hs) ≠ "") :
    (m.canonicalize text hint).1 = canon ∧
    _language_candidates (_normalize_language hint) =
      (if (pyLower (pyStrip hs)).data.contains (Char.ofNat 45) then
        [pyLower (pyStrip hs), baseSubtag (pyLower (pyStrip hs))]
      else [pyLower (pyStrip hs)]) ∧
    (dsAliasMap.canonicalize "ds" (some "en")).1 = "Data Systems" ∧
    (dsAliasMap.canonicalize "ds" (some "fr")).1 = "Data Science" := by
  have hs0 : hs ≠ "" := by
    intro h
    subst h
    exact hslow (by decide)
  refine ⟨?_, ?_, by decide, by decide⟩
  · simp only [AliasMap.canonicalize, hfind, if_neg hne]
  · have hn : _normalize_language hint = some (pyLower (pyStrip hs)) := by
      simp [_normalize_language, hhint, hs0, hslow]
    rw [hn]
    simp [_language_candidates, hslow]

/-- Witness for C4 at the example map with hint `en`. -/
theorem claim4_witness :
    (dsAliasMap.canonicalize "ds" (some "en")).1 = "Data Systems" ∧
    _language_candidates (_normalize_language (some "en")) = ["en"] ∧
    (dsAliasMap.canonicalize "ds" (some "fr")).1 = "Data Science" := by
  have h := claim4_locale_precedence dsAliasMap "ds" (some "en") "en" "en"
    "Data Systems" (by decide) (by decide) rfl (by decide)
  refine ⟨h.1, ?_, h.2.2.2⟩
  have h2 := h.2.1
  simpa using h2

/-- C5: `canonicalize` is a total function returning a (canonical text, log)
pair for every input and hint (it raises nothing); text that is empty after
trimming canonicalizes to the empty string and the normalizer drops such an
occurrence and appends a skip log line instead of erroring; text with no
locale or global mapping passes through trimmed as its own canonical form. -/
theorem claim5_never_raises (m : AliasMap) (hint : Option String)
    (col : ExtractedEntityCollection) (occ : EntityOccurrence)
    (textA textB : String)
    (hA : pyStrip textA = "")
    (hocc : pyStrip occ.raw_text = "")
    (hmem : occ ∈ col.occurrences)
    (hB1 : pyStrip textB ≠ "")
    (hB2 : localeFind m (pyCasefold (pyStrip textB))
        (_language_candidates (_normalize_language hint)) = none)
    (hB3 : dictGet m.alias_lookup (pyCasefold (pyStrip textB)) = none) :
    (m.canonicalize textA hint).1 = "" ∧
    (∃ p, (m.canonicalize textA hint).2 =
      p ++ ["Discarded empty entity after trimming."]) ∧
    normalizedOccurrence m hint col.language_profile occ = none ∧
    "Skipped occurrence with empty canonical text after normalization." ∈
      (normalize_entities col m hint).normalization_log ∧
    (m.canonicalize textB hint).1 = pyStrip textB := by
  have hcanonA : ∀ lang, (m.canonicalize textA lang).1 = "" := by
    intro lang
    simp [AliasMap.canonicalize, hA]
  have hcanonOcc : ∀ lang, (m.canonicalize occ.raw_text lang).1 = "" := by
    intro lang
    simp [AliasMap.canonicalize, hocc]
  refine ⟨hcanonA hint, ?_, ?_, ?_, ?_⟩
  · refine ⟨(m.canonicalize textA hint).2.dropLast, ?_⟩
    simp [AliasMap.canonicalize, hA]
  · simp [normalizedOccurrence, hcanonOcc]
  · have hmemlog : "Skipped occurrence with empty canonical text after normalization." ∈
        occurrenceLogs m hint col.language_profile col.occurrences := by
      simp only [occurrenceLogs, List.mem_flatMap]
      exact ⟨occ, hmem, by simp [hcanonOcc]⟩
    simp only [normalize_entities, List.mem_append]
    tauto
  · simp only [AliasMap.canonicalize, hB2, hB3, if_neg hB1]

/-- Witness for C5: an all-whitespace occurrence is dropped and logged, and
unmapped text passes through unchanged, on a concrete collection and map. -/
theorem claim5_witness :
    (dsAliasMap.canonicalize "  " none).1 = "" ∧
    (∃ p, (dsAliasMap.canonicalize "  " none).2 =
      p ++ ["Discarded empty entity after trimming."]) ∧
    normalizedOccurrence dsAliasMap none LanguageProfile.noneP
      { defaultOcc with raw_text := "  ", ingestion_index := 0 } = none ∧
    "Skipped occurrence with empty canonical text after normalization." ∈
      (normalize_entities
        { occurrences := [{ defaultOcc with raw_text := "  ", ingestion_index := 0 }],
          canonical_entities := [], language_profile := LanguageProfile.noneP,
          normalization_log := [] } dsAliasMap none).normalization_log ∧
    (dsAliasMap.canonicalize "Rust" none).1 = pyStrip "Rust" := by
  exact claim5_never_raises dsAliasMap none
    { occurrences := [{ defaultOcc with raw_text := "  ", ingestion_index := 0 }],
      canonical_entities := [], language_profile := LanguageProfile.noneP,
      normalization_log := [] }
    { defaultOcc with raw_text := "  ", ingestion_index := 0 }
    "  " "Rust" (by decide) (by decide) (by simp) (by decide) (by decide) (by decide)

/-! ### Claims C9 and C10 -/

/-- C9: `normalize_entities` returns the input `language_profile` unchanged
and only appends to the input `normalization_log`: the input log is a prefix
of the output log, with its lines carried over in order, never removed or
rewritten. -/
theorem claim9_frame (col : ExtractedEntityCollection) (am : AliasMap)
    (hint : Option String) :
    (normalize_entities col am hint).language_profile = col.language_profile ∧
    ∃ rest, (normalize_entities col am hint).normalization_log =
      col.normalization_log ++ rest :=
  ⟨rfl, _, rfl⟩

theorem groupUpsert_sum (k : String × String) (o : EntityOccurrence) :
    ∀ g : List ((String × String) × List EntityOccurrence),
      ((groupUpsert k o g).map (fun p => p.2.length)).sum =
        (g.map (fun p => p.2.length)).sum + 1 := by
  intro g
  induction g with
  | nil => simp [groupUpsert]
  | cons p rest ih =>
    obtain ⟨k2, os⟩ := p
    by_cases h : k2 = k
    · simp [groupUpsert, h]
      omega
    · simp only [groupUpsert, h, if_neg, if_false, List.map_cons, List.sum_cons, ih]
      omega

theorem groupPairs_total_length (occs : List EntityOccurrence) :
    ((groupPairs occs).map (fun p => p.2.length)).sum = occs.length := by
  suffices haux : ∀ (l : List EntityOccurrence)
      (g0 : List ((String × String) × List EntityOccurrence)),
      ((l.foldl (fun g o => groupUpsert (occKey o) o g) g0).map
        (fun p => p.2.length)).sum = (g0.map (fun p => p.2.length)).sum + l.length by
    simpa [groupPairs] using haux occs []
  intro l
  induction l with
  | nil => intro g0; simp
  | cons o os ih =>
    intro g0
    simp only [List.foldl_cons, List.length_cons, ih, groupUpsert_sum]
    omega

/-- C10: in the output of `normalize_entities`, every canonical entity has
`occurrence_count` equal to the length of its `occurrences`, which equals
the lengths of its `contexts` and `sources`; and the counts summed over all
canonical entities equal the length of the output `occurrences` (the
entities' occurrence lists partition the surviving occurrences). -/
theorem claim10_counts (col : ExtractedEntityCollection) (am : AliasMap)
    (hint : Option String) :
    ((normalize_entities col am hint).canonical_entities.all (fun e =>
      (e.occurrence_count == e.occurrences.length) &&
      (e.contexts.length == e.occurrences.length) &&
      (e.sources.length == e.occurrences.length))) = true ∧
    ((normalize_entities col am hint).canonical_entities.map
      (fun e => e.occurrence_count)).sum =
      (normalize_entities col am hint).occurrences.length := by
  constructor
  · rw [List.all_eq_true]
    intro e he
    have he2 : e ∈ (groupPairs (survivingOccurrences am hint col.language_profile
        col.occurrences)).map
          (fun g => mkCanonicalEntity g.1.1 (stableSort occOrderLt g.2)) := by
      have := (stableSort_mem entityOrderLt _ e).mp he
      simpa using this
    obtain ⟨g, _, hg⟩ := List.mem_map.mp he2
    subst hg
    simp [mkCanonicalEntity]
  · have hperm : ((normalize_entities col am hint).canonical_entities.map
        (fun e => e.occurrence_count)).sum =
        (((groupPairs (survivingOccurrences am hint col.language_profile
          col.occurrences)).map
            (fun g => mkCanonicalEntity g.1.1 (stableSort occOrderLt g.2))).map
          (fun e => e.occurrence_count)).sum := by
      exact List.Perm.sum_eq ((stableSort_perm entityOrderLt _).map _)
    rw [hperm]
    have hlen : (normalize_entities col am hint).occurrences.length =
        (survivingOccurrences am hint col.language_profile col.occurrences).length := by
      exact stableSort_length ingestionLt _
    rw [hlen, ← groupPairs_total_length
      (survivingOccurrences am hint col.language_profile col.occurrences)]
    rw [List.map_map]
    congr 1
    apply List.map_congr_left
    intro g _
    simp [mkCanonicalEntity, stableSort_length]

/-! ### Claim C7 -/

theorem entity_notGt_le (a b : CanonicalEntity) (h : entityOrderLt b a = false) :
    strLt a.category b.category = true ∨
    (a.category = b.category ∧
      (strLt (pyCasefold a.text) (pyCasefold b.text) = true ∨
        pyCasefold a.text = pyCasefold b.text)) := by
  obtain ⟨hirr, htr, hconn⟩ := strLt_cmp
  simp only [entityOrderLt, pairLtB, entitySortKey] at h
  by_cases h1 : strLt b.category a.category = true
  · simp [h1] at h
  · by_cases h2 : strLt a.category b.category = true
    · exact Or.inl h2
    · have hcat : a.category = b.category :=
        hconn a.category b.category (by revert h2; cases strLt a.category b.category <;> simp)
          (by revert h1; cases strLt b.category a.category <;> simp)
      refine Or.inr ⟨hcat, ?_⟩
      simp only [if_neg h1, if_neg h2] at h
      by_cases h3 : strLt (pyCasefold a.text) (pyCasefold b.text) = true
      · exact Or.inl h3
      · exact Or.inr (hconn _ _
          (by revert h3; cases strLt (pyCasefold a.text) (pyCasefold b.text) <;> simp) h)

/-- C7: the output collection's `canonical_entities` are sorted by
`(category, case-insensitive text)` and its `occurrences` are sorted by
ascending `ingestion_index`; normalization is a pure function, so repeating
it on the same input yields the identical (bit-identical ordering) output. -/
theorem claim7_deterministic_ordering (col : ExtractedEntityCollection)
    (am : AliasMap) (hint : Option String) :
    List.Sorted (fun a b : CanonicalEntity =>
      strLt a.category b.category = true ∨
      (a.category = b.category ∧
        (strLt (pyCasefold a.text) (pyCasefold b.text) = true ∨
          pyCasefold a.text = pyCasefold b.text)))
      (normalize_entities col am hint).canonical_entities ∧
    List.Sorted (fun a b : EntityOccurrence =>
      a.ingestion_index ≤ b.ingestion_index)
      (normalize_entities col am hint).occurrences ∧
    normalize_entities col am hint = normalize_entities col am hint := by
  refine ⟨?_, ?_, rfl⟩
  · have hs := sorted_stableSort entityOrderLt_transAsymm
      ((groupPairs (survivingOccurrences am hint col.language_profile
        col.occurrences)).map
          (fun g => mkCanonicalEntity g.1.1 (stableSort occOrderLt g.2)))
    exact List.Pairwise.imp (fun h => entity_notGt_le _ _ h) hs
  · have hs := sorted_stableSort ingestionLt_transAsymm
      (survivingOccurrences am hint col.language_profile col.occurrences)
    refine List.Pairwise.imp (fun {a b} h => ?_) hs
    have : ingestionLt b a = false := h
    simp only [ingestionLt, decide_eq_false_iff_not, Nat.not_lt] at this
    exact this

/-! ### Claim C3: bucket characterization of the grouping dict -/

/-- Bucket stored under `k` (empty when the key is absent). -/
def groupLookup (g : List ((String × String) × List EntityOccurrence))
    (k : String × String) : List EntityOccurrence :=
  match g with
  | [] => []
  | (k2, os) :: rest => if k2 = k then os else groupLookup rest k

theorem groupLookup_upsert (k k0 : String × String) (o : EntityOccurrence) :
    ∀ g, groupLookup (groupUpsert k o g) k0 =
      if k = k0 then groupLookup g k0 ++ [o] else groupLookup g k0 := by
  intro g
  induction g with
  | nil =>
    by_cases h : k = k0 <;> simp [groupUpsert, groupLookup, h]
  | cons p rest ih =>
    obtain ⟨k2, os⟩ := p
    by_cases h2 : k2 = k
    · subst h2
      by_cases h0 : k2 = k0 <;> simp [groupUpsert, groupLookup, h0]
    · by_cases h0 : k2 = k0
      · subst h0
        have hkk : k ≠ k2 := fun hc => h2 hc.symm
        simp [groupUpsert, groupLookup, h2, hkk, ih]
      · simp [groupUpsert, groupLookup, h2, h0, ih]

theorem groupPairs_lookup (occs : List EntityOccurrence) (k : String × String) :
    groupLookup (groupPairs occs) k =
      occs.filter (fun o => decide (occKey o = k)) := by
  suffices haux : ∀ (l : List EntityOccurrence) g0,
      groupLookup (l.foldl (fun g o => groupUpsert (occKey o) o g) g0) k =
        groupLookup g0 k ++ l.filter (fun o => decide (occKey o = k)) by
    simpa [groupPairs, groupLookup] using haux occs []
  intro l
  induction l with
  | nil => intro g0; simp
  | cons o os ih =>
    intro g0
    simp only [List.foldl_cons, ih, groupLookup_upsert]
    by_cases h : occKey o = k
    · simp [h]
    · simp [h]

theorem groupUpsert_keys (k : String × String) (o : EntityOccurrence) :
    ∀ g, (groupUpsert k o g).map Prod.fst =
      if k ∈ g.map Prod.fst then g.map Prod.fst else g.map Prod.fst ++ [k] := by
  intro g
  induction g with
  | nil => simp [groupUpsert]
  | cons p rest ih =>
    obtain ⟨k2, os⟩ := p
    by_cases h : k2 = k
    · subst h
      simp [groupUpsert]
    · have hne : k ≠ k2 := fun hc => h hc.symm
      by_cases hmem : k ∈ rest.map Prod.fst
      · simp [groupUpsert, h, ih, hmem, hne]
      · simp [groupUpsert, h, ih, hmem, hne]

theorem groupPairs_keys_nodup (occs : List EntityOccurrence) :
    ((groupPairs occs).map Prod.fst).Nodup := by
  suffices haux : ∀ (l : List EntityOccurrence) g0,
      (g0.map Prod.fst).Nodup →
        ((l.foldl (fun g o => groupUpsert (occKey o) o g) g0).map Prod.fst).Nodup by
    exact haux occs [] (by simp)
  intro l
  induction l with
  | nil => intro g0 h; simpa using h
  | cons o os ih =>
    intro g0 h
    refine ih (groupUpsert (occKey o) o g0) ?_
    rw [groupUpsert_keys]
    by_cases hmem : occKey o ∈ g0.map Prod.fst
    · simpa [hmem] using h
    · simp only [hmem, if_neg, if_false]
      simpa [List.nodup_append, hmem] using h

theorem groupLookup_of_mem (k : String × String) (os : List EntityOccurrence) :
    ∀ g, (g.map Prod.fst).Nodup → (k, os) ∈ g → groupLookup g k = os := by
  intro g
  induction g with
  | nil => intro _ h; cases h
  | cons p rest ih =>
    obtain ⟨k2, os2⟩ := p
    intro hnd hmem
    have hnd2 : (k2 :: rest.map Prod.fst).Nodup := by simpa using hnd
    cases List.mem_cons.mp hmem with
    | inl h => cases h; simp [groupLookup]
    | inr h =>
      have hk2 : k2 ∉ rest.map Prod.fst := (List.nodup_cons.mp hnd2).1
      have hne : k2 ≠ k := by
        intro hc
        subst hc
        exact hk2 (List.mem_map.mpr ⟨(k2, os), h, rfl⟩)
      simp only [groupLookup, hne, if_neg, if_false]
      exact ih (List.nodup_cons.mp hnd2).2 h

theorem mem_of_groupLookup_ne_nil (k : String × String) :
    ∀ g, groupLookup g k ≠ [] → (k, groupLookup g k) ∈ g := by
  intro g
  induction g with
  | nil => intro h; exact absurd rfl h
  | cons p rest ih =>
    obtain ⟨k2, os2⟩ := p
    intro h
    by_cases h2 : k2 = k
    · subst h2
      simp [groupLookup]
    · simp only [groupLookup, h2, if_neg, if_false] at h ⊢
      exact List.mem_cons_of_mem _ (ih h)

/-- A member bucket of the grouping dict is exactly the filter of the input
at its key. -/
theorem mem_groupPairs_bucket (occs : List EntityOccurrence)
    (k : String × String) (os : List EntityOccurrence)
    (h : (k, os) ∈ groupPairs occs) :
    os = occs.filter (fun o => decide (occKey o = k)) := by
  rw [← groupPairs_lookup]
  exact (groupLookup_of_mem k os (groupPairs occs) (groupPairs_keys_nodup occs) h).symm

theorem filter_map_eq_singleton {α β : Type} (l : List α) (f : α → β)
    (p : β → Bool) (x : α) (hnd : l.Nodup) (hx : x ∈ l)
    (hiff : ∀ y ∈ l, (p (f y) = true ↔ y = x)) :
    (l.map f).filter p = [f x] := by
  induction l with
  | nil => cases hx
  | cons a rest ih =>
    obtain ⟨ha, hndrest⟩ := List.nodup_cons.mp hnd
    rcases List.mem_cons.mp hx with rfl | hx2
    · have hpa : p (f x) = true := (hiff x (List.mem_cons_self x rest)).mpr rfl
      have hrest : (rest.map f).filter p = [] := by
        rw [List.filter_eq_nil_iff]
        intro b hb
        obtain ⟨y, hy, rfl⟩ := List.mem_map.mp hb
        intro hpb
        exact ha (((hiff y (List.mem_cons_of_mem x hy)).mp hpb) ▸ hy)
      simp [hpa, hrest]
    · have hpa : p (f a) = false := by
        by_contra hc
        have hc2 : p (f a) = true := by revert hc; cases p (f a) <;> simp
        have := (hiff a (List.mem_cons_self a rest)).mp hc2
        subst this
        exact ha hx2
      have := ih hndrest hx2 (fun y hy => hiff y (List.mem_cons_of_mem a hy))
      simp [hpa, this]

/-- C3: when exactly two surviving occurrences share a grouping key
(same category, canonical texts equal after casefolding), exactly one
canonical entity contains them; its `occurrence_count` is 2, its
`top_confidence` is the maximum of the two confidences, its display text is
the canonical text of the first occurrence under the
`(ingestion_index, case-insensitive document display, case-insensitive raw
text)` sort, and its aliases are the distinct raw texts in first-seen
(sorted) order. -/
theorem claim3_grouping (col : ExtractedEntityCollection) (am : AliasMap)
    (hint : Option String) (k : String × String) (o1 o2 : EntityOccurrence)
    (hfilter : (survivingOccurrences am hint col.language_profile
        col.occurrences).filter (fun o => decide (occKey o = k)) = [o1, o2]) :
    ∃ e : CanonicalEntity,
      ((normalize_entities col am hint).canonical_entities.filter
        (fun e2 => decide (o1 ∈ e2.occurrences))) = [e] ∧
      e.occurrence_count = 2 ∧
      o2 ∈ e.occurrences ∧
      e.top_confidence = max o1.confidence o2.confidence ∧
      e.occurrences = (if occOrderLt o2 o1 = true then [o2, o1] else [o1, o2]) ∧
      e.text = (if occOrderLt o2 o1 = true then o2 else o1).canonical_text ∧
      e.aliases = firstDedup
        ((if occOrderLt o2 o1 = true then [o2, o1] else [o1, o2]).map
          (fun o => o.raw_text)) ∧
      e.category = k.1 := by
  have ho1 : o1 ∈ (survivingOccurrences am hint col.language_profile
      col.occurrences).filter (fun o => decide (occKey o = k)) := by
    rw [hfilter]; simp
  have ho2 : o2 ∈ (survivingOccurrences am hint col.language_profile
      col.occurrences).filter (fun o => decide (occKey o = k)) := by
    rw [hfilter]; simp
  have hk1 : occKey o1 = k := by
    have := List.mem_filter.mp ho1
    simpa using this.2
  have hlook : groupLookup (groupPairs (survivingOccurrences am hint
      col.language_profile col.occurrences)) k = [o1, o2] := by
    rw [groupPairs_lookup, hfilter]
  have hxmem : (k, [o1, o2]) ∈ groupPairs (survivingOccurrences am hint
      col.language_profile col.occurrences) := by
    have := mem_of_groupLookup_ne_nil k (groupPairs (survivingOccurrences am hint
      col.language_profile col.occurrences)) (by rw [hlook]; simp)
    rwa [hlook] at this
  have hnd : (groupPairs (survivingOccurrences am hint col.language_profile
      col.occurrences)).Nodup :=
    List.Nodup.of_map Prod.fst (groupPairs_keys_nodup _)
  have hiff : ∀ y ∈ groupPairs (survivingOccurrences am hint
      col.language_profile col.occurrences),
      ((fun e2 => decide (o1 ∈ e2.occurrences))
        ((fun g => mkCanonicalEntity g.1.1 (stableSort occOrderLt g.2)) y) = true ↔
        y = (k, [o1, o2])) := by
    intro y hy
    obtain ⟨k2, os2⟩ := y
    simp only [mkCanonicalEntity, decide_eq_true_eq]
    constructor
    · intro hmem
      have hmem2 : o1 ∈ os2 := (stableSort_mem occOrderLt os2 o1).mp hmem
      have hbucket := mem_groupPairs_bucket _ k2 os2 hy
      have hk2 : occKey o1 = k2 := by
        have := List.mem_filter.mp (hbucket ▸ hmem2)
        simpa using this.2
      have hkk : k2 = k := by rw [← hk2, hk1]
      subst hkk
      rw [hbucket, hfilter]
    · intro hyx
      cases hyx
      exact (stableSort_mem occOrderLt [o1, o2] o1).mpr (by simp)
  have hfm := filter_map_eq_singleton
    (groupPairs (survivingOccurrences am hint col.language_profile col.occurrences))
    (fun g => mkCanonicalEntity g.1.1 (stableSort occOrderLt g.2))
    (fun e2 => decide (o1 ∈ e2.occurrences))
    (k, [o1, o2]) hnd hxmem hiff
  have hproj : (normalize_entities col am hint).canonical_entities =
      stableSort entityOrderLt
        ((groupPairs (survivingOccurrences am hint col.language_profile
          col.occurrences)).map
            (fun g => mkCanonicalEntity g.1.1 (stableSort occOrderLt g.2))) := rfl
  have hpermfilter :
      ((normalize_entities col am hint).canonical_entities.filter
        (fun e2 => decide (o1 ∈ e2.occurrences))).Perm
        [mkCanonicalEntity k.1 (stableSort occOrderLt [o1, o2])] := by
    rw [hproj, ← hfm]
    exact (stableSort_perm entityOrderLt _).filter _
  have hsingle :
      (normalize_entities col am hint).canonical_entities.filter
        (fun e2 => decide (o1 ∈ e2.occurrences)) =
        [mkCanonicalEntity k.1 (stableSort occOrderLt [o1, o2])] :=
    List.perm_singleton.mp hpermfilter
  refine ⟨mkCanonicalEntity k.1 (stableSort occOrderLt [o1, o2]),
    hsingle, ?_, ?_, ?_, ?_, ?_, ?_, rfl⟩
  · rw [mkCanonicalEntity]
    simp [stableSort_length]
  · rw [mkCanonicalEntity]
    simp only
    exact (stableSort_mem occOrderLt [o1, o2] o2).mpr (by simp)
  · rw [mkCanonicalEntity, stableSort_pair]
    by_cases h : occOrderLt o2 o1 = true
    · simp [h, maxConfidence, max_comm]
    · simp [h, maxConfidence]
  · rw [mkCanonicalEntity, stableSort_pair]
  · rw [mkCanonicalEntity, stableSort_pair]
    by_cases h : occOrderLt o2 o1 = true
    · simp [h]
    · simp [h]
  · rw [mkCanonicalEntity, stableSort_pair]

/-- The spec's end-to-end example: two occurrences of the PyTorch skill. -/
def pyOcc1 : EntityOccurrence :=
  { raw_text := "PyTorch", canonical_text := "PyTorch", category := "skill",
    confidence := mkRat 61 100, span := (0, 7), document_role := "resume",
    document_display := "resume.pdf", source_language := "en",
    context_snippet := "frameworks incl. PyTorch", ingestion_index := 0 }

/-- Second occurrence of the same skill, different document and spelling. -/
def pyOcc2 : EntityOccurrence :=
  { raw_text := "pytorch", canonical_text := "pytorch", category := "skill",
    confidence := mkRat 74 100, span := (3, 10), document_role := "job",
    document_display := "job.txt", source_language := "en",
    context_snippet := "experience with pytorch", ingestion_index := 1 }

/-- An alias map with no mappings at all. -/
def emptyAliasMap : AliasMap :=
  { canonical_to_aliases := [], alias_lookup := [], locale_lookup := [],
    sources := [] }

/-- The example input collection of the two PyTorch occurrences. -/
def pytorchCol : ExtractedEntityCollection :=
  { occurrences := [pyOcc1, pyOcc2], canonical_entities := [],
    language_profile := LanguageProfile.noneP, normalization_log := [] }

/-- Witness for C3 on the spec's PyTorch example. -/
theorem claim3_witness :
    ∃ e : CanonicalEntity,
      ((normalize_entities pytorchCol emptyAliasMap none).canonical_entities.filter
        (fun e2 => decide (pyOcc1 ∈ e2.occurrences))) = [e] ∧
      e.occurrence_count = 2 ∧
      pyOcc2 ∈ e.occurrences ∧
      e.top_confidence = max pyOcc1.confidence pyOcc2.confidence ∧
      e.occurrences = (if occOrderLt pyOcc2 pyOcc1 = true then [pyOcc2, pyOcc1]
        else [pyOcc1, pyOcc2]) ∧
      e.text = (if occOrderLt pyOcc2 pyOcc1 = true then pyOcc2
        else pyOcc1).canonical_text ∧
      e.aliases = firstDedup
        ((if occOrderLt pyOcc2 pyOcc1 = true then [pyOcc2, pyOcc1]
          else [pyOcc1, pyOcc2]).map (fun o => o.raw_text)) ∧
      e.category = ("skill", "pytorch").1 :=
  claim3_grouping pytorchCol emptyAliasMap none ("skill", "pytorch")
    pyOcc1 pyOcc2 (by decide)

/-! ### Claim C2: structure of the log sanitizer -/

theorem sanScan_no_quote :
    ∀ (l : List Char), sqChar ∉ l → sanScan l none = l := by
  intro l
  induction l with
  | nil => intro _; rfl
  | cons c cs ih =>
    intro h
    have hc : c ≠ sqChar := fun hc => h (hc ▸ List.mem_cons_self c cs)
    have hcs : sqChar ∉ cs := fun hm => h (List.mem_cons_of_mem c hm)
    simp [sanScan, hc, ih hcs]

theorem sanScan_close_quote :
    ∀ (v : List Char), sqChar ∉ v → ∀ (buf rest : List Char),
      sanScan (v ++ sqChar :: rest) (some buf) =
        sqChar :: (_mask_value (String.mk (buf ++ v))).data
          ++ sqChar :: sanScan rest none := by
  intro v
  induction v with
  | nil =>
    intro _ buf rest
    simp [sanScan]
  | cons c cs ih =>
    intro h buf rest
    have hc : c ≠ sqChar := fun hc => h (hc ▸ List.mem_cons_self c cs)
    have hcs : sqChar ∉ cs := fun hm => h (List.mem_cons_of_mem c hm)
    simp only [List.cons_append, sanScan, hc, if_neg, if_false, List.append_eq]
    rw [ih hcs (buf ++ [c]) rest]
    simp

theorem sanScan_replace :
    ∀ (pre : List Char), sqChar ∉ pre → ∀ (v rest : List Char), sqChar ∉ v →
      sanScan (pre ++ (sqChar :: v ++ sqChar :: rest)) none =
        pre ++ (sqChar :: (_mask_value (String.mk v)).data
          ++ sqChar :: sanScan rest none) := by
  intro pre
  induction pre with
  | nil =>
    intro _ v rest hv
    show sanScan (sqChar :: (v ++ sqChar :: rest)) none = _
    simp only [sanScan, if_pos rfl]
    have := sanScan_close_quote v hv [] rest
    simpa using this
  | cons c cs ih =>
    intro h v rest hv
    have hc : c ≠ sqChar := fun hc => h (hc ▸ List.mem_cons_self c cs)
    have hcs : sqChar ∉ cs := fun hm => h (List.mem_cons_of_mem c hm)
    show sanScan (c :: (cs ++ (sqChar :: v ++ sqChar :: rest))) none = _
    simp only [sanScan, hc, if_neg, if_false]
    rw [ih hcs v rest hv]
    rfl

theorem shaRound_length (hv : List Nat) (kt wt : Nat) :
    (shaRound hv kt wt).length = hv.length := by
  unfold shaRound
  split
  · simp
  · rfl

theorem foldl_shaRound_length (pairs : List (Nat × Nat)) :
    ∀ hv : List Nat,
      (pairs.foldl (fun acc p => shaRound acc p.1 p.2) hv).length = hv.length := by
  induction pairs with
  | nil => intro hv; rfl
  | cons p ps ih => intro hv; rw [List.foldl_cons, ih, shaRound_length]

theorem shaCompressBlock_length (hv block : List Nat) :
    (shaCompressBlock hv block).length = hv.length := by
  unfold shaCompressBlock
  rw [List.length_map, List.length_zip, foldl_shaRound_length]
  omega

theorem sha256Words_length (msg : List Nat) : (sha256Words msg).length = 8 := by
  unfold sha256Words
  suffices haux : ∀ (blocks : List (List Nat)) (hv : List Nat),
      (blocks.foldl shaCompressBlock hv).length = hv.length by
    rw [haux]
    rfl
  intro blocks
  induction blocks with
  | nil => intro hv; rfl
  | cons b bs ih => intro hv; rw [List.foldl_cons, ih, shaCompressBlock_length]

theorem sha256Hex_length (s : String) : (sha256Hex s).data.length = 64 := by
  have haux : ∀ ws : List Nat,
      ((ws.map word8Hex).map List.length).sum = 8 * ws.length := by
    intro ws
    induction ws with
    | nil => rfl
    | cons w rest ih =>
      simp only [List.map_cons, List.sum_cons, List.length_cons, ih]
      have hw : (word8Hex w).length = 8 := by simp [word8Hex]
      omega
  show (((sha256Words (utf8Bytes s)).map word8Hex).flatten).length = 64
  rw [List.length_flatten, haux, sha256Words_length]

theorem hexChar_mem_digits (n : Nat) (h : n < 16) :
    hexChar n ∈ ("0123456789abcdef").data := by
  have hall : ∀ m, m < 16 → hexChar m ∈ ("0123456789abcdef").data := by decide
  exact hall n h

theorem sha256Hex_mem_digits (s : String) :
    ∀ c ∈ (sha256Hex s).data, c ∈ ("0123456789abcdef").data := by
  intro c hc
  have hc2 : c ∈ (((sha256Words (utf8Bytes s)).map word8Hex).flatten) := hc
  obtain ⟨block, hblock, hcb⟩ := List.mem_flatten.mp hc2
  obtain ⟨w, _, rfl⟩ := List.mem_map.mp hblock
  obtain ⟨i, _, rfl⟩ := List.mem_map.mp hcb
  exact hexChar_mem_digits _ (Nat.mod_lt _ (by decide))

/-- `String.mk` versus field access. -/
theorem string_mk_eq_iff_data (l : List Char) (s : String) :
    String.mk l = s ↔ l = s.data := by
  cases s with
  | mk d => exact ⟨fun h => by cases h; rfl, fun h => by rw [h]⟩

/-- The masked token's hex part. -/
theorem mask_value_shape (v : String) :
    ∃ hx : String, _mask_value v = "<redacted:" ++ hx ++ ">" ∧
      hx.data.length = 8 ∧
      (∀ c ∈ hx.data, c ∈ ("0123456789abcdef").data) ∧
      hx.data = (sha256Hex v).data.take 8 := by
  refine ⟨String.mk ((sha256Hex v).data.take 8), rfl, ?_, ?_, rfl⟩
  · show ((sha256Hex v).data.take 8).length = 8
    rw [List.length_take, sha256Hex_length]
    omega
  · intro c hc
    exact sha256Hex_mem_digits v c (List.mem_of_mem_take hc)

/-- A log line as an alternation of quote-free text segments and quoted
values, ended by a quote-free tail: every log line the canonicalizer and
normalizer emit (zero, one, two or three quoted spans) has this shape. -/
def spansConcat : List (String × String) → String → String
  | [], tail => tail
  | (t, v) :: rest, tail => t ++ sqStr ++ v ++ sqStr ++ spansConcat rest tail

/-- The same line with every quoted value replaced by its masked token. -/
def spansMasked : List (String × String) → String → String
  | [], tail => tail
  | (t, v) :: rest, tail => t ++ sqStr ++ _mask_value v ++ sqStr ++ spansMasked rest tail

theorem sanScan_spans :
    ∀ (segs : List (String × String)) (tail : String),
      (∀ p ∈ segs, sqChar ∉ (Prod.fst p).data ∧ sqChar ∉ (Prod.snd p).data) →
      sqChar ∉ tail.data →
      sanScan (spansConcat segs tail).data none = (spansMasked segs tail).data := by
  intro segs
  induction segs with
  | nil =>
    intro tail _ htail
    exact sanScan_no_quote tail.data htail
  | cons p rest ih =>
    obtain ⟨t, v⟩ := p
    intro tail hsegs htail
    have ht : sqChar ∉ t.data :=
      (hsegs (t, v) (List.mem_cons_self _ _)).1
    have hv : sqChar ∉ v.data :=
      (hsegs (t, v) (List.mem_cons_self _ _)).2
    have hdata : (spansConcat ((t, v) :: rest) tail).data =
        t.data ++ (sqChar :: v.data ++ sqChar :: (spansConcat rest tail).data) := by
      show (t ++ sqStr ++ v ++ sqStr ++ spansConcat rest tail).data = _
      simp [sqStr]
    rw [hdata, sanScan_replace t.data ht v.data (spansConcat rest tail).data hv,
      ih tail (fun p hp => hsegs p (List.mem_cons_of_mem _ hp)) htail]
    show _ = (t ++ sqStr ++ _mask_value v ++ sqStr ++ spansMasked rest tail).data
    simp [sqStr]

/-- C2 (amended): in every log line — an alternation of quote-free segments
and any number of single-quoted spans — sanitization replaces each quoted
span by the quoted fixed-length hex token derived from the SHA-256 digest of
its value, the identical value yielding the identical token at every span of
every line (normalization is pure, so also across runs); the sanitized line
therefore cannot contain a quoted value unless that value also occurs in the
surrounding text or inside the replacement token text itself; in particular,
on the PyTorch example collection, the raw value `PyTorch` is embedded in
quotes by the canonicalizer, yet no line of the entire output normalization
log contains the literal `PyTorch`. -/
theorem claim2_redaction (segs : List (String × String)) (tail : String)
    (hsegs : ∀ p ∈ segs, sqChar ∉ (Prod.fst p).data ∧ sqChar ∉ (Prod.snd p).data)
    (htail : sqChar ∉ tail.data) :
    sanitizeLine (spansConcat segs tail) = spansMasked segs tail ∧
    (∀ p ∈ segs, ∃ hx : String,
      _mask_value (Prod.snd p) = "<redacted:" ++ hx ++ ">" ∧
      hx.data.length = 8 ∧
      (∀ c ∈ hx.data, c ∈ ("0123456789abcdef").data) ∧
      hx.data = (sha256Hex (Prod.snd p)).data.take 8) ∧
    (emptyAliasMap.canonicalize "PyTorch" none).2 =
      ["Casefolded " ++ quoted "PyTorch" ++ " -> " ++ quoted "pytorch" ++ ".",
       "No alias mapping for " ++ quoted "PyTorch" ++ "; using canonical key "
        ++ quoted "PyTorch" ++ "."] ∧
    ((normalize_entities pytorchCol emptyAliasMap none).normalization_log.all
      (fun l => !containsStr l "PyTorch")) = true := by
  refine ⟨?_, fun p _ => mask_value_shape (Prod.snd p), by decide, by decide⟩
  rw [sanitizeLine, string_mk_eq_iff_data]
  exact sanScan_spans segs tail hsegs htail

/-- Witness for C2 on the very two-span line the canonicalizer emits for an
unmapped `PyTorch`. -/
theorem claim2_witness :
    sanitizeLine (spansConcat
      [("No alias mapping for ", "PyTorch"), ("; using canonical key ", "PyTorch")]
      ".") =
      spansMasked
        [("No alias mapping for ", "PyTorch"), ("; using canonical key ", "PyTorch")]
        "." ∧
    (∀ p ∈ [("No alias mapping for ", "PyTorch"),
        ("; using canonical key ", "PyTorch")], ∃ hx : String,
      _mask_value (Prod.snd p) = "<redacted:" ++ hx ++ ">" ∧
      hx.data.length = 8 ∧
      (∀ c ∈ hx.data, c ∈ ("0123456789abcdef").data) ∧
      hx.data = (sha256Hex (Prod.snd p)).data.take 8) ∧
    (emptyAliasMap.canonicalize "PyTorch" none).2 =
      ["Casefolded " ++ quoted "PyTorch" ++ " -> " ++ quoted "pytorch" ++ ".",
       "No alias mapping for " ++ quoted "PyTorch" ++ "; using canonical key "
        ++ quoted "PyTorch" ++ "."] ∧
    ((normalize_entities pytorchCol emptyAliasMap none).normalization_log.all
      (fun l => !containsStr l "PyTorch")) = true :=
  claim2_redaction
    [("No alias mapping for ", "PyTorch"), ("; using canonical key ", "PyTorch")]
    "." (by decide) (by decide)

/-- An occurrence whose raw text is the word `redact`. -/
def redactOcc : EntityOccurrence :=
  { defaultOcc with
    raw_text := "redact", canonical_text := "redact",
    category := "skill", confidence := mkRat 1 2 }

/-- A collection containing only the `redact` occurrence. -/
def redactCol : ExtractedEntityCollection :=
  { occurrences := [redactOcc], canonical_entities := [],
    language_profile := LanguageProfile.noneP, normalization_log := [] }

/-- Counterexample to C2 as stated: canonicalizing the raw value `redact`
emits a log line embedding it in single quotes, yet after sanitization the
normalization log still contains the substring `redact` — the replacement
token text `<redacted:...>` itself contains it. -/
theorem claim2_counterexample :
    (emptyAliasMap.canonicalize "redact" none).2 =
      ["No alias mapping for " ++ quoted "redact" ++ "; using canonical key "
        ++ quoted "redact" ++ "."] ∧
    ((normalize_entities redactCol emptyAliasMap none).normalization_log.any
      (fun l => containsStr l "redact")) = true := by
  constructor
  · decide
  · decide

/-! ### Claim C8: malformed sources abort the merge -/

/-- A value that `_normalize_canonical` / `_normalize_alias` rejects:
not a string, or empty after trimming. -/
def keyBadStr : Yaml → Bool
  | .strV s => decide (pyStrip s = "")
  | _ => true

/-- An alias value that `_apply_aliases` rejects (note `None` is skipped and
an empty list is allowed). -/
def aliasValueBad : Yaml → Bool
  | .nullV => false
  | .listV items => items.any keyBadStr
  | _ => true

/-- An `aliases` entry some part of which is rejected. -/
def aliasEntryBad (e : Yaml × Yaml) : Bool := keyBadStr e.1 || aliasValueBad e.2

/-- An `aliases` section that makes `_apply_aliases` raise. -/
def aliasesSectionBad : Option Yaml → Bool
  | none => false
  | some .nullV => false
  | some (.mapV entries) => entries.any aliasEntryBad
  | some _ => true

/-- A locale key that `_normalize_locale` rejects. -/
def localeKeyBad : Yaml → Bool
  | .strV s => decide (pyLower (pyStrip s) = "")
  | _ => true

/-- A locale pair whose canonical value or alias key is rejected. -/
def localeItemBad (p : Yaml × Yaml) : Bool := keyBadStr p.2 || keyBadStr p.1

/-- A locale value that `_apply_locale_overrides` rejects (`None` is not a
mapping, so it is fatal here). -/
def localeValueBad : Yaml → Bool
  | .mapV inner => inner.any localeItemBad
  | _ => true

/-- A `locale_overrides` entry some part of which is rejected. -/
def localeEntryBad (e : Yaml × Yaml) : Bool := localeKeyBad e.1 || localeValueBad e.2

/-- A `locale_overrides` section that makes `_apply_locale_overrides` raise. -/
def localeSectionBad : Option Yaml → Bool
  | none => false
  | some .nullV => false
  | some (.mapV entries) => entries.any localeEntryBad
  | some _ => true

/-- A source document with a malformed shape that the merge rejects: a
truthy non-mapping root (a falsy root is turned into an empty mapping by
`safe_load(...) or {}`), a truthy non-mapping section, a non-string or
empty-after-trim canonical/alias/locale key or value, or an alias value that
is neither null nor a list. -/
def sourceMalformed (v : Yaml) : Bool :=
  if yamlFalsy v then false
  else
    match v with
    | .mapV entries =>
      aliasesSectionBad (yamlLookup entries "aliases")
        || localeSectionBad (yamlLookup entries "locale_overrides")
    | _ => true

theorem normalize_canonical_bad (y : Yaml) (src : String)
    (h : keyBadStr y = true) : ∃ e, _normalize_canonical y src = .error e := by
  cases y with
  | strV s =>
    have hs : pyStrip s = "" := by simpa [keyBadStr] using h
    exact ⟨_, by simp [_normalize_canonical, hs]; rfl⟩
  | nullV => exact ⟨_, rfl⟩
  | boolV b => exact ⟨_, rfl⟩
  | intV n => exact ⟨_, rfl⟩
  | listV xs => exact ⟨_, rfl⟩
  | mapV es => exact ⟨_, rfl⟩

theorem normalize_alias_bad (y : Yaml) (src canonical : String)
    (h : keyBadStr y = true) : ∃ e, _normalize_alias y src canonical = .error e := by
  cases y with
  | strV s =>
    have hs : pyStrip s = "" := by simpa [keyBadStr] using h
    exact ⟨_, by simp [_normalize_alias, hs]; rfl⟩
  | nullV => exact ⟨_, rfl⟩
  | boolV b => exact ⟨_, rfl⟩
  | intV n => exact ⟨_, rfl⟩
  | listV xs => exact ⟨_, rfl⟩
  | mapV es => exact ⟨_, rfl⟩

theorem normalize_locale_bad (y : Yaml) (src : String)
    (h : localeKeyBad y = true) : ∃ e, _normalize_locale y src = .error e := by
  cases y with
  | strV s =>
    have hs : pyLower (pyStrip s) = "" := by simpa [localeKeyBad] using h
    exact ⟨_, by simp [_normalize_locale, hs]; rfl⟩
  | nullV => exact ⟨_, rfl⟩
  | boolV b => exact ⟨_, rfl⟩
  | intV n => exact ⟨_, rfl⟩
  | listV xs => exact ⟨_, rfl⟩
  | mapV es => exact ⟨_, rfl⟩

theorem applyAliasItem_bad (src canonical : String) (item : Yaml)
    (h : keyBadStr item = true) (st : MergeState) :
    ∃ e, applyAliasItem src canonical st item = .error e := by
  obtain ⟨e, he⟩ := normalize_alias_bad item src canonical h
  exact ⟨e, by simp [applyAliasItem, he]⟩

theorem applyAliasEntry_bad (src : String) (entry : Yaml × Yaml)
    (h : aliasEntryBad entry = true) (st : MergeState) :
    ∃ e, applyAliasEntry src st entry = .error e := by
  rcases Bool.or_eq_true_iff.mp (by simpa [aliasEntryBad] using h) with hk | hv
  · obtain ⟨e, he⟩ := normalize_canonical_bad entry.1 src hk
    exact ⟨e, by simp [applyAliasEntry, he]⟩
  · cases hnc : _normalize_canonical entry.1 src with
    | error e => exact ⟨e, by simp [applyAliasEntry, hnc]⟩
    | ok canonical =>
      cases hrc : _register_canonical canonical st.canonical_registry src with
      | error e => exact ⟨e, by simp [applyAliasEntry, hnc, hrc]⟩
      | ok creg =>
        cases hra : _register_alias (pyCasefold canonical) canonical
            st.alias_registry src (some canonical) with
        | error e => exact ⟨e, by simp [applyAliasEntry, hnc, hrc, hra]⟩
        | ok areg =>
          cases hv2 : entry.2 with
          | nullV => rw [hv2] at hv; simp [aliasValueBad] at hv
          | listV items =>
            rw [hv2] at hv
            obtain ⟨item, hitem, hbad⟩ := List.any_eq_true.mp
              (by simpa [aliasValueBad] using hv)
            obtain ⟨e, he⟩ := exceptFold_error_mem (applyAliasItem src canonical)
              item (applyAliasItem_bad src canonical item hbad) items
              { st with
                canonical_registry := creg, alias_registry := areg,
                alias_lookup :=
                  dictInsert st.alias_lookup (pyCasefold canonical) canonical,
                canonical_to_aliases :=
                  setdefaultBucket st.canonical_to_aliases canonical } hitem
            exact ⟨e, by simp [applyAliasEntry, hnc, hrc, hra, hv2, he]⟩
          | boolV b => exact ⟨_, by simp [applyAliasEntry, hnc, hrc, hra, hv2]; rfl⟩
          | intV n => exact ⟨_, by simp [applyAliasEntry, hnc, hrc, hra, hv2]; rfl⟩
          | strV s => exact ⟨_, by simp [applyAliasEntry, hnc, hrc, hra, hv2]; rfl⟩
          | mapV es => exact ⟨_, by simp [applyAliasEntry, hnc, hrc, hra, hv2]; rfl⟩

theorem apply_aliases_bad (d : Option Yaml) (src : String)
    (h : aliasesSectionBad d = true) (st : MergeState) :
    ∃ e, _apply_aliases d st src = .error e := by
  cases d with
  | none => simp [aliasesSectionBad] at h
  | some v =>
    cases v with
    | nullV => simp [aliasesSectionBad] at h
    | mapV entries =>
      have h2 : ∃ a b, (a, b) ∈ entries ∧ aliasEntryBad (a, b) = true := by
        simpa [aliasesSectionBad, List.any_eq_true] using h
      obtain ⟨a, b, hmem, hbad⟩ := h2
      obtain ⟨e, he⟩ := exceptFold_error_mem (applyAliasEntry src) (a, b)
        (applyAliasEntry_bad src (a, b) hbad) entries st hmem
      exact ⟨e, by simp [_apply_aliases, he]⟩
    | boolV b => exact ⟨_, rfl⟩
    | intV n => exact ⟨_, rfl⟩
    | strV s => exact ⟨_, rfl⟩
    | listV xs => exact ⟨_, rfl⟩

theorem applyLocaleItem_bad (src locale : String) (pair : Yaml × Yaml)
    (h : localeItemBad pair = true) (st : MergeState) :
    ∃ e, applyLocaleItem src locale st pair = .error e := by
  cases hnc : _normalize_canonical pair.2 src with
  | error e => exact ⟨e, by simp [applyLocaleItem, hnc]⟩
  | ok canonical =>
    have hk : keyBadStr pair.1 = true := by
      rcases Bool.or_eq_true_iff.mp (by simpa [localeItemBad] using h) with hc | hk
      · obtain ⟨e, he⟩ := normalize_canonical_bad pair.2 src hc
        rw [hnc] at he
        cases he
      · exact hk
    cases hrc : _register_canonical canonical st.canonical_registry src with
    | error e => exact ⟨e, by simp [applyLocaleItem, hnc, hrc]⟩
    | ok creg =>
      cases hra : _register_alias (pyCasefold canonical) canonical
          st.alias_registry src (some canonical) with
      | error e => exact ⟨e, by simp [applyLocaleItem, hnc, hrc, hra]⟩
      | ok areg =>
        obtain ⟨e, he⟩ := normalize_alias_bad pair.1 src canonical hk
        exact ⟨e, by simp [applyLocaleItem, hnc, hrc, hra, he]⟩

theorem applyLocaleEntry_bad (src : String) (entry : Yaml × Yaml)
    (h : localeEntryBad entry = true) (st : MergeState) :
    ∃ e, applyLocaleEntry src st entry = .error e := by
  rcases Bool.or_eq_true_iff.mp (by simpa [localeEntryBad] using h) with hk | hv
  · obtain ⟨e, he⟩ := normalize_locale_bad entry.1 src hk
    exact ⟨e, by simp [applyLocaleEntry, he]⟩
  · cases hnl : _normalize_locale entry.1 src with
    | error e => exact ⟨e, by simp [applyLocaleEntry, hnl]⟩
    | ok locale =>
      cases hv2 : entry.2 with
      | mapV inner =>
        rw [hv2] at hv
        have h2 : ∃ a b, (a, b) ∈ inner ∧ localeItemBad (a, b) = true := by
          simpa [localeValueBad, List.any_eq_true] using hv
        obtain ⟨a, b, hmem, hbad⟩ := h2
        obtain ⟨e, he⟩ := exceptFold_error_mem (applyLocaleItem src locale) (a, b)
          (applyLocaleItem_bad src locale (a, b) hbad) inner
          { st with
            locale_lookup := setdefaultLocale st.locale_lookup locale } hmem
        exact ⟨e, by simp [applyLocaleEntry, hnl, hv2, he]⟩
      | nullV => exact ⟨_, by simp [applyLocaleEntry, hnl, hv2]; rfl⟩
      | boolV b => exact ⟨_, by simp [applyLocaleEntry, hnl, hv2]; rfl⟩
      | intV n => exact ⟨_, by simp [applyLocaleEntry, hnl, hv2]; rfl⟩
      | strV s => exact ⟨_, by simp [applyLocaleEntry, hnl, hv2]; rfl⟩
      | listV xs => exact ⟨_, by simp [applyLocaleEntry, hnl, hv2]; rfl⟩

theorem apply_locale_overrides_bad (d : Option Yaml) (src : String)
    (h : localeSectionBad d = true) (st : MergeState) :
    ∃ e, _apply_locale_overrides d st src = .error e := by
  cases d with
  | none => simp [localeSectionBad] at h
  | some v =>
    cases v with
    | nullV => simp [localeSectionBad] at h
    | mapV entries =>
      have h2 : ∃ a b, (a, b) ∈ entries ∧ localeEntryBad (a, b) = true := by
        simpa [localeSectionBad, List.any_eq_true] using h
      obtain ⟨a, b, hmem, hbad⟩ := h2
      obtain ⟨e, he⟩ := exceptFold_error_mem (applyLocaleEntry src) (a, b)
        (applyLocaleEntry_bad src (a, b) hbad) entries st hmem
      exact ⟨e, by simp [_apply_locale_overrides, he]⟩
    | boolV b => exact ⟨_, rfl⟩
    | intV n => exact ⟨_, rfl⟩
    | strV s => exact ⟨_, rfl⟩
    | listV xs => exact ⟨_, rfl⟩

theorem applySource_bad (src : String) (v : Yaml)
    (h : sourceMalformed v = true) (st : MergeState) :
    ∃ e, applySource st (src, v) = .error e := by
  by_cases hf : yamlFalsy v = true
  · simp [sourceMalformed, hf] at h
  · have hf2 : yamlFalsy v = false := by revert hf; cases yamlFalsy v <;> simp
    cases v with
    | mapV entries =>
      have hload : loadYamlParsed (Yaml.mapV entries) src = .ok entries := by
        simp [loadYamlParsed, hf2]
      rcases Bool.or_eq_true_iff.mp (by simpa [sourceMalformed, hf2] using h) with
        ha | hl
      · obtain ⟨e, he⟩ := apply_aliases_bad (yamlLookup entries "aliases") src ha st
        exact ⟨e, by simp [applySource, hload, he]⟩
      · cases hal : _apply_aliases (yamlLookup entries "aliases") st src with
        | error e => exact ⟨e, by simp [applySource, hload, hal]⟩
        | ok st2 =>
          obtain ⟨e, he⟩ := apply_locale_overrides_bad
            (yamlLookup entries "locale_overrides") src hl st2
          exact ⟨e, by simp [applySource, hload, hal, he]⟩
    | nullV => simp [yamlFalsy] at hf2
    | boolV b => exact ⟨_, by simp [applySource, loadYamlParsed, hf2]; rfl⟩
    | intV n => exact ⟨_, by simp [applySource, loadYamlParsed, hf2]; rfl⟩
    | strV s => exact ⟨_, by simp [applySource, loadYamlParsed, hf2]; rfl⟩
    | listV xs => exact ⟨_, by simp [applySource, loadYamlParsed, hf2]; rfl⟩

/-- C8 (amended): any source whose content has a malformed shape — a truthy
non-mapping root, a truthy non-mapping `aliases` or `locale_overrides`
section, a non-string or empty-after-trim canonical/alias/locale key or
value, or an alias value that is neither null nor a list — aborts the entire
merge with a fatal error, and no `AliasMap` (in particular no partial one)
is returned; a falsy root, however, is treated as an empty mapping by
`yaml.safe_load(...) or {}`, and a null alias value is skipped. -/
theorem claim8_malformed_fatal (pre post : List (String × Yaml)) (s : String)
    (v : Yaml) (h : sourceMalformed v = true) :
    ∃ e, load_alias_map (pre ++ (s, v) :: post) = .error e := by
  obtain ⟨e, he⟩ := exceptFold_error_mem applySource (s, v)
    (applySource_bad s v h) (pre ++ (s, v) :: post) emptyMergeState (by simp)
  exact ⟨e, by simp [load_alias_map, he]⟩

/-- Witness for C8: a truthy non-mapping root aborts the merge. -/
theorem claim8_witness :
    ∃ e, load_alias_map [("bad.yaml", Yaml.strV "oops")] = .error e :=
  claim8_malformed_fatal [] [] "bad.yaml" (Yaml.strV "oops") (by decide)

/-- Counterexample to C8 as stated: a root that is an empty YAML list is a
non-mapping root, yet `yaml.safe_load(...) or {}` silently turns this falsy
document into an empty mapping and the merge succeeds; likewise a null alias
value (`canonical:` with no list) is a non-list alias value that is accepted.
In both cases an `AliasMap` is returned rather than a fatal error. -/
theorem claim8_counterexample :
    (∃ m, load_alias_map [("config.yaml", Yaml.listV [])] = .ok m) ∧
    (∃ m, load_alias_map
      [("config.yaml", Yaml.mapV
        [(Yaml.strV "aliases", Yaml.mapV [(Yaml.strV "Python", Yaml.nullV)])])] =
        .ok m) :=
  ⟨⟨_, rfl⟩, ⟨_, rfl⟩⟩

/-! ### Claim C6: trimming is idempotent -/

theorem dropWhile_head_false {α : Type} (p : α → Bool) :
    ∀ (l : List α) (a : α) (t : List α), l.dropWhile p = a :: t → p a = false := by
  intro l
  induction l with
  | nil => intro a t h; cases h
  | cons b bs ih =>
    intro a t h
    by_cases hb : p b = true
    · rw [List.dropWhile_cons_of_pos hb] at h
      exact ih a t h
    · have hb2 : p b = false := by revert hb; cases p b <;> simp
      rw [List.dropWhile_cons_of_neg (by simp [hb2])] at h
      cases h
      exact hb2

theorem dropWhile_eq_self_of_head {α : Type} (p : α → Bool) (l : List α)
    (h : ∀ a t, l = a :: t → p a = false) : l.dropWhile p = l := by
  cases l with
  | nil => rfl
  | cons a t => exact List.dropWhile_cons_of_neg (by simp [h a t rfl])

theorem dropWhile_getLast? {α : Type} (p : α → Bool) :
    ∀ (l : List α), l.dropWhile p = [] ∨ (l.dropWhile p).getLast? = l.getLast? := by
  intro l
  induction l with
  | nil => exact Or.inl rfl
  | cons a t ih =>
    by_cases ha : p a = true
    · rw [List.dropWhile_cons_of_pos ha]
      rcases ih with h | h
      · exact Or.inl h
      · cases t with
        | nil => exact Or.inl rfl
        | cons b bs => exact Or.inr (by rw [h, List.getLast?_cons_cons])
    · rw [List.dropWhile_cons_of_neg (by simpa using ha)]
      exact Or.inr rfl

theorem stripped_head_last (l : List Char) :
    ∀ a t, pyStripChars l = a :: t →
      Char.isWhitespace a = false ∧
      ∀ b, (a :: t).getLast? = some b → Char.isWhitespace b = false := by
  intro a t h
  have hz : (l.dropWhile Char.isWhitespace).reverse.dropWhile Char.isWhitespace =
      (a :: t).reverse := by
    have := congrArg List.reverse h
    rwa [pyStripChars, List.reverse_reverse] at this
  constructor
  · rcases hrev : (a :: t).reverse with _ | ⟨z, zs⟩
    · exact absurd (congrArg List.length hrev) (by simp)
    · have hlast : ((l.dropWhile Char.isWhitespace).reverse.dropWhile
          Char.isWhitespace).getLast? = some a := by
        rw [hz, List.getLast?_reverse]
        rfl
      rcases dropWhile_getLast? Char.isWhitespace
          (l.dropWhile Char.isWhitespace).reverse with hnil | heq
      · rw [hnil] at hlast
        cases hlast
      · rw [heq, List.getLast?_reverse] at hlast
        obtain ⟨hd, rest, hdrop⟩ : ∃ hd rest,
            l.dropWhile Char.isWhitespace = hd :: rest := by
          cases hcase : l.dropWhile Char.isWhitespace with
          | nil => rw [hcase] at hlast; cases hlast
          | cons hd rest => exact ⟨hd, rest, rfl⟩
        rw [hdrop] at hlast
        have : hd = a := by simpa using hlast
        subst this
        exact dropWhile_head_false Char.isWhitespace l hd rest hdrop
  · intro b hb
    have : ((a :: t).reverse).head? = some b := by
      rw [List.head?_reverse, hb]
    obtain ⟨z, zs, hzz⟩ : ∃ z zs, (a :: t).reverse = z :: zs := by
      cases hcase : (a :: t).reverse with
      | nil => rw [hcase] at this; cases this
      | cons z zs => exact ⟨z, zs, rfl⟩
    rw [hzz] at this
    have hbz : z = b := by simpa using this
    subst hbz
    exact dropWhile_head_false Char.isWhitespace
      (l.dropWhile Char.isWhitespace).reverse z zs (hz.trans hzz)

theorem pyStripChars_idem (l : List Char) :
    pyStripChars (pyStripChars l) = pyStripChars l := by
  cases hx : pyStripChars l with
  | nil => rfl
  | cons a t =>
    obtain ⟨hhead, hlast⟩ := stripped_head_last l a t hx
    have h1 : (a :: t).dropWhile Char.isWhitespace = a :: t :=
      dropWhile_eq_self_of_head _ _ (fun b bs hb => by cases hb; exact hhead)
    have h2 : (a :: t).reverse.dropWhile Char.isWhitespace = (a :: t).reverse := by
      refine dropWhile_eq_self_of_head _ _ (fun b bs hb => ?_)
      refine hlast b ?_
      rw [← List.head?_reverse, hb]
      rfl
    rw [pyStripChars, h1, h2, List.reverse_reverse]

theorem pyStrip_idem (s : String) : pyStrip (pyStrip s) = pyStrip s := by
  show String.mk (pyStripChars (pyStripChars s.data)) = String.mk (pyStripChars s.data)
  rw [pyStripChars_idem]

/-! ### Claim C6: the merge invariant tying `alias_lookup` to the registry -/

theorem normalize_canonical_ok (y : Yaml) (src c : String)
    (h : _normalize_canonical y src = .ok c) : pyStrip c = c ∧ c ≠ "" := by
  cases y with
  | strV s =>
    by_cases hs : pyStrip s = ""
    · simp [_normalize_canonical, hs] at h
    · have h2 : c = pyStrip s := by
        simp only [_normalize_canonical, hs, if_neg, if_false] at h
        cases h
        rfl
      subst h2
      exact ⟨pyStrip_idem s, hs⟩
  | nullV => cases h
  | boolV b => cases h
  | intV n => cases h
  | listV xs => cases h
  | mapV es => cases h

theorem register_alias_ok_get (k v : String)
    (reg : List (String × String × String)) (src : String) (d : Option String)
    (reg2 : List (String × String × String))
    (h : _register_alias k v reg src d = .ok reg2) :
    dictGet reg2 k = some (v, src) ∧
    ∀ k0 v0 s0, dictGet reg k0 = some (v0, s0) →
      ∃ s1, dictGet reg2 k0 = some (v0, s1) := by
  unfold _register_alias at h
  cases hget : dictGet reg k with
  | none =>
    rw [hget] at h
    cases h
    constructor
    · rw [dictGet_insert]
      simp
    · intro k0 v0 s0 h0
      by_cases hk : k = k0
      · subst hk
        rw [hget] at h0
        cases h0
      · exact ⟨s0, by rw [dictGet_insert, if_neg hk]; exact h0⟩
  | some pv =>
    obtain ⟨prev, psrc⟩ := pv
    rw [hget] at h
    by_cases hne : prev = v
    · subst hne
      simp only [ne_eq, not_true_eq_false, if_false, if_neg] at h
      cases h
      constructor
      · rw [dictGet_insert]
        simp
      · intro k0 v0 s0 h0
        by_cases hk : k = k0
        · subst hk
          rw [hget] at h0
          cases h0
          exact ⟨src, by rw [dictGet_insert]; simp⟩
        · exact ⟨s0, by rw [dictGet_insert, if_neg hk]; exact h0⟩
    · simp [hne] at h

theorem mem_setdefaultBucket (d : List (String × List String)) (k c : String)
    (vs : List String) (h : (c, vs) ∈ setdefaultBucket d k) :
    (c, vs) ∈ d ∨ c = k := by
  unfold setdefaultBucket at h
  by_cases hs : (dictGet d k).isSome = true
  · rw [if_pos hs] at h
    exact Or.inl h
  · rw [if_neg hs] at h
    rcases List.mem_append.mp h with h2 | h2
    · exact Or.inl h2
    · right
      cases List.mem_singleton.mp h2
      rfl

theorem mem_bucketAdd (k v c : String) (vs : List String) :
    ∀ d, (c, vs) ∈ bucketAdd d k v → (∃ vs0, (c, vs0) ∈ d) ∨ c = k := by
  intro d
  induction d with
  | nil =>
    intro h
    right
    cases List.mem_singleton.mp h
    rfl
  | cons p rest ih =>
    obtain ⟨k2, vs2⟩ := p
    intro h
    by_cases h2 : k2 = k
    · subst h2
      simp only [bucketAdd, if_pos rfl] at h
      rcases List.mem_cons.mp h with h3 | h3
      · right
        exact congrArg Prod.fst h3
      · exact Or.inl ⟨vs, List.mem_cons_of_mem _ h3⟩
    · simp only [bucketAdd, h2, if_neg, if_false] at h
      rcases List.mem_cons.mp h with h3 | h3
      · have hcc : c = k2 := congrArg Prod.fst h3
        subst hcc
        exact Or.inl ⟨vs2, List.mem_cons_self _ _⟩
      · rcases ih h3 with ⟨vs0, h4⟩ | h4
        · exact Or.inl ⟨vs0, List.mem_cons_of_mem _ h4⟩
        · exact Or.inr h4

/-- The invariant threaded through the merge: the global alias table agrees
with the alias registry, and every canonical display form collected so far
is trimmed, non-empty, and registered (as an alias of itself) in the alias
registry under its casefolded key. -/
def MergeInv (st : MergeState) : Prop :=
  (∀ k v, dictGet st.alias_lookup k = some v →
    ∃ s, dictGet st.alias_registry k = some (v, s)) ∧
  (∀ c vs, (c, vs) ∈ st.canonical_to_aliases →
    pyStrip c = c ∧ c ≠ "" ∧
      ∃ s, dictGet st.alias_registry (pyCasefold c) = some (c, s))

/-- The per-item strengthening for the alias list fold: the entry's
canonical is itself well-formed and registered. -/
def AliasItemInv (canonical : String) (st : MergeState) : Prop :=
  MergeInv st ∧ pyStrip canonical = canonical ∧ canonical ≠ "" ∧
    ∃ s, dictGet st.alias_registry (pyCasefold canonical) = some (canonical, s)

theorem applyAliasItem_inv (src canonical : String) (st : MergeState)
    (item : Yaml) (st2 : MergeState)
    (h : applyAliasItem src canonical st item = .ok st2)
    (hinv : AliasItemInv canonical st) : AliasItemInv canonical st2 := by
  unfold applyAliasItem at h
  cases hna : _normalize_alias item src canonical with
  | error e => simp only [hna] at h; cases h
  | ok kd =>
    obtain ⟨key, display⟩ := kd
    simp only [hna] at h
    cases hra : _register_alias key canonical st.alias_registry src (some display) with
    | error e => simp only [hra] at h; cases h
    | ok areg =>
      simp only [hra] at h
      cases h
      obtain ⟨⟨hA, hB⟩, hsc, hnc, s0, hreg⟩ := hinv
      obtain ⟨hself, hpres⟩ := register_alias_ok_get key canonical
        st.alias_registry src (some display) areg hra
      obtain ⟨s1, hreg2⟩ := hpres _ _ _ hreg
      refine ⟨⟨?_, ?_⟩, hsc, hnc, s1, hreg2⟩
      · intro k0 v0 h0
        rw [dictGet_insert] at h0
        by_cases hk : key = k0
        · rw [if_pos hk] at h0
          cases h0
          exact ⟨src, hk ▸ hself⟩
        · rw [if_neg hk] at h0
          obtain ⟨s, hs⟩ := hA k0 v0 h0
          exact hpres k0 v0 s hs
      · intro c vs hc
        rcases mem_bucketAdd canonical display c vs st.canonical_to_aliases hc with
          ⟨vs0, hmem⟩ | hck
        · obtain ⟨h1, h2, s, hs⟩ := hB c vs0 hmem
          exact ⟨h1, h2, hpres _ _ _ hs⟩
        · subst hck
          exact ⟨hsc, hnc, s1, hreg2⟩

theorem applyAliasEntry_inv (src : String) (st : MergeState)
    (entry : Yaml × Yaml) (st2 : MergeState)
    (h : applyAliasEntry src st entry = .ok st2)
    (hinv : MergeInv st) : MergeInv st2 := by
  unfold applyAliasEntry at h
  cases hnc : _normalize_canonical entry.1 src with
  | error e => simp only [hnc] at h; cases h
  | ok canonical =>
    simp only [hnc] at h
    obtain ⟨hsc, hne⟩ := normalize_canonical_ok entry.1 src canonical hnc
    cases hrc : _register_canonical canonical st.canonical_registry src with
    | error e => simp only [hrc] at h; cases h
    | ok creg =>
      simp only [hrc] at h
      cases hra : _register_alias (pyCasefold canonical) canonical
          st.alias_registry src (some canonical) with
      | error e => simp only [hra] at h; cases h
      | ok areg =>
        simp only [hra] at h
        obtain ⟨hself, hpres⟩ := register_alias_ok_get (pyCasefold canonical)
          canonical st.alias_registry src (some canonical) areg hra
        obtain ⟨hA, hB⟩ := hinv
        have hstA : AliasItemInv canonical
            { st with canonical_registry := creg, alias_registry := areg,
                      alias_lookup :=
                        dictInsert st.alias_lookup (pyCasefold canonical) canonical,
                      canonical_to_aliases :=
                        setdefaultBucket st.canonical_to_aliases canonical } := by
          refine ⟨⟨?_, ?_⟩, hsc, hne, src, hself⟩
          · intro k0 v0 h0
            rw [dictGet_insert] at h0
            by_cases hk : pyCasefold canonical = k0
            · rw [if_pos hk] at h0
              cases h0
              exact ⟨src, hk ▸ hself⟩
            · rw [if_neg hk] at h0
              obtain ⟨s, hs⟩ := hA k0 v0 h0
              exact hpres k0 v0 s hs
          · intro c vs hc
            rcases mem_setdefaultBucket st.canonical_to_aliases canonical c vs hc with
              hmem | hck
            · obtain ⟨h1, h2, s, hs⟩ := hB c vs hmem
              exact ⟨h1, h2, hpres _ _ _ hs⟩
            · subst hck
              exact ⟨hsc, hne, src, hself⟩
        cases hv2 : entry.2 with
        | nullV =>
          simp only [hv2] at h
          cases h
          exact hstA.1
        | listV items =>
          simp only [hv2] at h
          exact (exceptFold_inv (applyAliasItem src canonical)
            (AliasItemInv canonical)
            (fun s1 x s2 hx hp => applyAliasItem_inv src canonical s1 x s2 hx hp)
            items _ st2 h hstA).1
        | boolV b => simp only [hv2] at h; cases h
        | intV n => simp only [hv2] at h; cases h
        | strV s => simp only [hv2] at h; cases h
        | mapV es => simp only [hv2] at h; cases h

theorem applyLocaleItem_inv (src locale : String) (st : MergeState)
    (pair : Yaml × Yaml) (st2 : MergeState)
    (h : applyLocaleItem src locale st pair = .ok st2)
    (hinv : MergeInv st) : MergeInv st2 := by
  unfold applyLocaleItem at h
  cases hnc : _normalize_canonical pair.2 src with
  | error e => simp only [hnc] at h; cases h
  | ok canonical =>
    simp only [hnc] at h
    obtain ⟨hsc, hne⟩ := normalize_canonical_ok pair.2 src canonical hnc
    cases hrc : _register_canonical canonical st.canonical_registry src with
    | error e => simp only [hrc] at h; cases h
    | ok creg =>
      simp only [hrc] at h
      cases hra : _register_alias (pyCasefold canonical) canonical
          st.alias_registry src (some canonical) with
      | error e => simp only [hra] at h; cases h
      | ok areg =>
        simp only [hra] at h
        cases hnal : _normalize_alias pair.1 src canonical with
        | error e => simp only [hnal] at h; cases h
        | ok kd =>
          obtain ⟨key, display⟩ := kd
          simp only [hnal] at h
          cases hra2 : _register_alias key canonical areg src (some display) with
          | error e => simp only [hra2] at h; cases h
          | ok areg2 =>
            simp only [hra2] at h
            cases h
            obtain ⟨hself1, hpres1⟩ := register_alias_ok_get (pyCasefold canonical)
              canonical st.alias_registry src (some canonical) areg hra
            obtain ⟨hself2, hpres2⟩ := register_alias_ok_get key canonical
              areg src (some display) areg2 hra2
            obtain ⟨hA, hB⟩ := hinv
            obtain ⟨s1, hself12⟩ := hpres2 _ _ _ hself1
            refine ⟨?_, ?_⟩
            · intro k0 v0 h0
              rw [dictGet_insert] at h0
              by_cases hk : key = k0
              · rw [if_pos hk] at h0
                cases h0
                exact ⟨src, hk ▸ hself2⟩
              · rw [if_neg hk] at h0
                obtain ⟨s, hs⟩ := hA k0 v0 h0
                obtain ⟨s2, hs2⟩ := hpres1 k0 v0 s hs
                exact hpres2 k0 v0 s2 hs2
            · intro c vs hc
              rcases mem_bucketAdd canonical display c vs
                  (setdefaultBucket st.canonical_to_aliases canonical) hc with
                ⟨vs0, hmem⟩ | hck
              · rcases mem_setdefaultBucket st.canonical_to_aliases canonical
                    c vs0 hmem with hmem2 | hck2
                · obtain ⟨h1, h2, s, hs⟩ := hB c vs0 hmem2
                  obtain ⟨s2, hs2⟩ := hpres1 _ _ _ hs
                  exact ⟨h1, h2, hpres2 _ _ _ hs2⟩
                · subst hck2
                  exact ⟨hsc, hne, s1, hself12⟩
              · subst hck
                exact ⟨hsc, hne, s1, hself12⟩

theorem applyLocaleEntry_inv (src : String) (st : MergeState)
    (entry : Yaml × Yaml) (st2 : MergeState)
    (h : applyLocaleEntry src st entry = .ok st2)
    (hinv : MergeInv st) : MergeInv st2 := by
  unfold applyLocaleEntry at h
  cases hnl : _normalize_locale entry.1 src with
  | error e => simp only [hnl] at h; cases h
  | ok locale =>
    rw [hnl] at h
    cases hv2 : entry.2 with
    | mapV pairs =>
      simp only [hv2] at h
      refine exceptFold_inv (applyLocaleItem src locale) MergeInv
        (fun s1 x s2 hx hp => applyLocaleItem_inv src locale s1 x s2 hx hp)
        pairs _ st2 h ?_
      exact hinv
    | nullV => simp only [hv2] at h; cases h
    | boolV b => simp only [hv2] at h; cases h
    | intV n => simp only [hv2] at h; cases h
    | strV s => simp only [hv2] at h; cases h
    | listV xs => simp only [hv2] at h; cases h

theorem apply_aliases_inv (d : Option Yaml) (st : MergeState) (src : String)
    (st2 : MergeState) (h : _apply_aliases d st src = .ok st2)
    (hinv : MergeInv st) : MergeInv st2 := by
  cases d with
  | none => cases h; exact hinv
  | some v =>
    cases v with
    | nullV => cases h; exact hinv
    | mapV entries =>
      exact exceptFold_inv (applyAliasEntry src) MergeInv
        (fun s1 x s2 hx hp => applyAliasEntry_inv src s1 x s2 hx hp)
        entries st st2 h hinv
    | boolV b => cases h
    | intV n => cases h
    | strV s => cases h
    | listV xs => cases h

theorem apply_locale_overrides_inv (d : Option Yaml) (st : MergeState)
    (src : String) (st2 : MergeState)
    (h : _apply_locale_overrides d st src = .ok st2)
    (hinv : MergeInv st) : MergeInv st2 := by
  cases d with
  | none => cases h; exact hinv
  | some v =>
    cases v with
    | nullV => cases h; exact hinv
    | mapV entries =>
      exact exceptFold_inv (applyLocaleEntry src) MergeInv
        (fun s1 x s2 hx hp => applyLocaleEntry_inv src s1 x s2 hx hp)
        entries st st2 h hinv
    | boolV b => cases h
    | intV n => cases h
    | strV s => cases h
    | listV xs => cases h

theorem applySource_inv (st : MergeState) (src : String × Yaml)
    (st2 : MergeState) (h : applySource st src = .ok st2)
    (hinv : MergeInv st) : MergeInv st2 := by
  unfold applySource at h
  cases hl : loadYamlParsed src.2 src.1 with
  | error e => simp only [hl] at h; cases h
  | ok payload =>
    simp only [hl] at h
    cases ha : _apply_aliases (yamlLookup payload "aliases") st src.1 with
    | error e => simp only [ha] at h; cases h
    | ok stm =>
      simp only [ha] at h
      exact apply_locale_overrides_inv _ stm src.1 st2 h
        (apply_aliases_inv _ st src.1 stm ha hinv)

/-- Facts about every canonical display form of a successfully merged map:
it is trimmed, non-empty, and the alias table can only map its casefolded
key to the canonical itself. -/
theorem merged_canonical_facts (sources : List (String × Yaml)) (m : AliasMap)
    (h : load_alias_map sources = .ok m) (c : String) (vs : List String)
    (hc : (c, vs) ∈ m.canonical_to_aliases) :
    pyStrip c = c ∧ c ≠ "" ∧
      ∀ v, dictGet m.alias_lookup (pyCasefold c) = some v → v = c := by
  unfold load_alias_map at h
  cases hfold : exceptFold applySource emptyMergeState sources with
  | error e => simp only [hfold] at h; cases h
  | ok st =>
    simp only [hfold] at h
    cases h
    have hinv : MergeInv st := by
      refine exceptFold_inv applySource MergeInv
        (fun s1 x s2 hx hp => applySource_inv s1 x s2 hx hp)
        sources emptyMergeState st hfold ?_
      constructor
      · intro k v hv
        cases hv
      · intro c0 vs0 hc0
        cases hc0
    obtain ⟨p, hp, hpc⟩ := List.mem_map.mp hc
    have hceq : c = p.1 := (congrArg Prod.fst hpc).symm
    obtain ⟨h1, h2, s, hs⟩ := hinv.2 p.1 p.2 (by
      cases p
      exact hp)
    refine ⟨hceq ▸ h1, hceq ▸ h2, ?_⟩
    intro v hv
    obtain ⟨s2, hs2⟩ := hinv.1 _ v (hceq ▸ hv)
    rw [hs] at hs2
    cases hs2
    exact hceq.symm

/-- C6 (amended): for every `AliasMap` produced by a successful merge, every
canonical display form it contains whose casefolded key is present in the
global alias table (true for every canonical declared in an `aliases`
section; a canonical introduced only by a locale override may lack the
self-alias), and any language hint under whose candidates no locale override
matches the casefolded canonical: canonicalizing the canonical returns it
unchanged, logging a confirmation (preceded only by a casefold note when the
display form has uppercase), not a mapping. When a locale override does
match, the same canonical is still returned but the log line records a
locale override instead of a confirmation. -/
theorem claim6_idempotent (sources : List (String × Yaml)) (m : AliasMap)
    (c : String) (vs : List String) (hint : Option String)
    (hload : load_alias_map sources = .ok m)
    (hc : (c, vs) ∈ m.canonical_to_aliases)
    (hself : (dictGet m.alias_lookup (pyCasefold c)).isSome = true)
    (hloc : localeFind m (pyCasefold c)
        (_language_candidates (_normalize_language hint)) = none) :
    m.canonicalize c hint = (c,
      (if pyCasefold c ≠ c then
        ["Casefolded " ++ quoted c ++ " -> " ++ quoted (pyCasefold c) ++ "."]
      else []) ++ ["Confirmed canonical form " ++ quoted c ++ "."]) := by
  obtain ⟨hsc, hnc, huniq⟩ := merged_canonical_facts sources m hload c vs hc
  obtain ⟨v, hv⟩ := Option.isSome_iff_exists.mp hself
  have hvc : v = c := huniq v hv
  subst hvc
  simp only [AliasMap.canonicalize, hsc, hloc, hv, if_neg hnc, ne_eq,
    not_true_eq_false, if_false, List.nil_append, ite_not]

/-- Recover an `Except.ok` equation from the (decidable) `toOption` form. -/
theorem except_ok_of_toOption {ε α : Type} (e : Except ε α) (a : α)
    (h : e.toOption = some a) : e = .ok a := by
  cases e with
  | ok b =>
    have : b = a := by simpa [Except.toOption] using h
    rw [this]
  | error err => simp [Except.toOption] at h

/-- The single-source configuration used in the C6 witness. -/
def c6okSources : List (String × Yaml) :=
  [("default.yaml", Yaml.mapV
    [(Yaml.strV "aliases", Yaml.mapV
      [(Yaml.strV "Data Science", Yaml.listV [Yaml.strV "ds"])])])]

/-- The snapshot `load_alias_map` produces for `c6okSources`. -/
def c6okMap : AliasMap :=
  { canonical_to_aliases := [("Data Science", ["ds"])],
    alias_lookup := [("data science", "Data Science"), ("ds", "Data Science")],
    locale_lookup := [],
    sources := ["default.yaml"] }

/-- Witness for C6: canonicalizing `Data Science` over its merged map with
no hint confirms it unchanged. -/
theorem claim6_witness :
    c6okMap.canonicalize "Data Science" none = ("Data Science",
      (if pyCasefold "Data Science" ≠ "Data Science" then
        ["Casefolded " ++ quoted "Data Science" ++ " -> "
          ++ quoted (pyCasefold "Data Science") ++ "."]
      else []) ++
      ["Confirmed canonical form " ++ quoted "Data Science" ++ "."]) :=
  claim6_idempotent c6okSources c6okMap "Data Science" ["ds"] none
    (except_ok_of_toOption _ _ (by decide)) (by decide) (by decide) (by decide)

/-- A source whose locale override maps the casefolded canonical back to the
canonical itself. -/
def c6src : Yaml :=
  Yaml.mapV
    [(Yaml.strV "aliases", Yaml.mapV
      [(Yaml.strV "Data Science", Yaml.listV [])]),
     (Yaml.strV "locale_overrides", Yaml.mapV
      [(Yaml.strV "en", Yaml.mapV
        [(Yaml.strV "data science", Yaml.strV "Data Science")])])]

/-- The map merged from `c6src`. -/
def c6map : AliasMap :=
  (load_alias_map [("cfg.yaml", c6src)]).toOption.getD emptyAliasMap

/-- Counterexample to C6 as stated: `c6src` merges successfully and contains
the canonical `Data Science`, but canonicalizing `Data Science` with hint
`en` — whose locale override maps `data science` to `Data Science` — returns
it unchanged while logging a locale override, not a confirmation, so
`canonicalize` does not always log a confirmation for a canonical under an
arbitrary optional hint. -/
theorem claim6_counterexample :
    (load_alias_map [("cfg.yaml", c6src)]).toOption = some c6map ∧
    ("Data Science", ["data science"]) ∈ c6map.canonical_to_aliases ∧
    (c6map.canonicalize "Data Science" (some "en")).1 = "Data Science" ∧
    (c6map.canonicalize "Data Science" (some "en")).2 =
      ["Casefolded " ++ quoted "Data Science" ++ " -> "
        ++ quoted "data science" ++ ".",
       "Applied locale override " ++ quoted "en" ++ ": "
        ++ quoted "Data Science" ++ " -> " ++ quoted "Data Science" ++ "."] ∧
    ("Confirmed canonical form " ++ quoted "Data Science" ++ ".") ∉
      (c6map.canonicalize "Data Science" (some "en")).2 := by
  refine ⟨by decide, by decide, by decide, by decide, by decide⟩

end Filtra

